import Mathlib

/-!
Verification of the kvnl serialization library.

The development shallowly embeds the Python sources:
  * `Spec`    — kvnl/specification.py (key / key:size token codec)
  * `Hashing` — kvnl/hashing.py (hash-context bookkeeping; the external hash
                algorithm is passed in as a `digestOf` function, and MD5 is
                implemented below so the concrete scenarios are executable)
  * `Loading` — kvnl/loading.py (suspendable readers over a byte source)
  * `Dumping` — kvnl/dumping.py (writers over a byte sink)
  * `KM`      — kvnl.py, the standalone flat module
  * `SM`      — kvnl/stream.py (`LoadingMixIn.load`)

Bytes are modelled as `List Nat` (each element a byte value < 256 in
practice), Python `str` as Lean `String`, and fallible code as `Except Err`.
A byte source is a list of pending bytes together with a schedule of
would-block answers; a would-block read is the suspension marker of the
source (`yield` of `None` in Python), and the embedded functions drive each
operation to completion exactly as the `for ... if item is None: yield`
loops in the source do.
-/

/-- Error values corresponding to the exceptions the Python code can raise. -/
inductive Err where
  /-- Python `EOFError`. -/
  | eof : Err
  /-- Python `BlockingIOError` (raised by `dump_some` on a would-block write). -/
  | blockingIOErr : Err
  /-- Python `ValueError` with its message. -/
  | valueError (msg : String) : Err
  /-- Python `NameError`: evaluating an f-string that references the given
  undefined variable name. -/
  | nameError (missing : String) : Err
  /-- Python `SyntaxError` (used by the flat kvnl.py module). -/
  | syntaxError : Err
  /-- Python `UnicodeDecodeError` / `UnicodeEncodeError`. -/
  | unicodeError : Err
  /-- kvnl.exceptions.MalformedSpecification, carrying the offending bytes. -/
  | malformedSpecification (spec : List Nat) : Err
  /-- kvnl.exceptions.Corruption with its message. -/
  | corruption (msg : String) : Err
  /-- kvnl.exceptions.HashMismatch (actual digest, expected digest). -/
  | hashMismatch (actual expected : String) : Err
  /-- Artificial marker: the fuel given to a loop wrapper was insufficient.
  Wrappers always supply enough fuel, so this never escapes them. -/
  | outOfFuel : Err
deriving DecidableEq, Repr

/-! ### Decimal rendering and parsing (Python `f-string` / `int`) -/

/-- Character for a decimal digit value. -/
def digitChar (d : Nat) : Char := Char.ofNat (48 + d)

/-- Helper for `natToDecimal`; the fuel argument only bounds recursion depth
(`fuel ≥ n` is always sufficient). -/
def natToDecimalAux : Nat → Nat → List Char → List Char
  | 0, _, acc => acc
  | _, 0, acc => acc
  | fuel + 1, n + 1, acc =>
      natToDecimalAux fuel ((n + 1) / 10) (digitChar ((n + 1) % 10) :: acc)

/-- Decimal rendering of a natural number, as Python `str(n)` / `f-strings`
produce it. -/
def natToDecimal (n : Nat) : List Char :=
  if n = 0 then [digitChar 0] else natToDecimalAux n n []

/-- Test for an ASCII decimal digit. -/
def isDigitChar (c : Char) : Bool := 48 ≤ c.toNat && c.toNat ≤ 57

/-- Numeric value of a most-significant-first digit string. -/
def decimalValue (cs : List Char) : Nat :=
  cs.foldl (fun acc c => 10 * acc + (c.toNat - 48)) 0

/-- Parse an unsigned decimal numeral (none on empty or non-digit input). -/
def parseDecimal (cs : List Char) : Option Nat :=
  if cs ≠ [] && cs.all isDigitChar then some (decimalValue cs) else none

/-- Parse as Python `int(...)` does for decimal strings: an optional single
sign followed by digits.  (Python additionally strips whitespace and allows
`_` digit grouping; no caller in this development depends on those cases.) -/
def parsePyInt (cs : List Char) : Option Int :=
  match cs with
  | [] => none
  | c :: rest =>
      if c = '-' then (parseDecimal rest).map (fun n => -(n : Int))
      else if c = '+' then (parseDecimal rest).map (fun n => (n : Int))
      else (parseDecimal (c :: rest)).map (fun n => (n : Int))

/-! ### UTF-8 / ASCII codecs (Python `str.encode` / `bytes.decode`) -/

/-- UTF-8 encoding of a single character. -/
def utf8Char (c : Char) : List Nat :=
  let n := c.toNat
  if n < 128 then [n]
  else if n < 2048 then [192 + n / 64, 128 + n % 64]
  else if n < 65536 then [224 + n / 4096, 128 + n / 64 % 64, 128 + n % 64]
  else [240 + n / 262144, 128 + n / 4096 % 64, 128 + n / 64 % 64, 128 + n % 64]

/-- UTF-8 encoding of a string (Python `s.encode()`). -/
def utf8Encode (s : String) : List Nat :=
  s.data.foldr (fun c acc => utf8Char c ++ acc) []

/-- UTF-8 decoding to a character list (Python `b.decode()`); `none` models
`UnicodeDecodeError`.  Sequence-length structure and continuation bytes are
validated; the overlong/surrogate restrictions Python additionally enforces
are not modelled (no input in this development exercises them). -/
def utf8DecodeChars : List Nat → Option (List Char)
  | [] => some []
  | b :: rest =>
    if b < 128 then (utf8DecodeChars rest).map (fun cs => Char.ofNat b :: cs)
    else
      match rest with
      | [] => none
      | b1 :: rest1 =>
        if b < 194 then none
        else if b ≤ 223 then
          if 128 ≤ b1 && b1 < 192 then
            (utf8DecodeChars rest1).map
              (fun cs => Char.ofNat ((b - 192) * 64 + (b1 - 128)) :: cs)
          else none
        else
          match rest1 with
          | [] => none
          | b2 :: rest2 =>
            if b ≤ 239 then
              if 128 ≤ b1 && b1 < 192 && 128 ≤ b2 && b2 < 192 then
                (utf8DecodeChars rest2).map
                  (fun cs =>
                    Char.ofNat ((b - 224) * 4096 + (b1 - 128) * 64 + (b2 - 128)) :: cs)
              else none
            else
              match rest2 with
              | [] => none
              | b3 :: rest3 =>
                if b ≤ 244 then
                  if 128 ≤ b1 && b1 < 192 && 128 ≤ b2 && b2 < 192 &&
                      128 ≤ b3 && b3 < 192 then
                    (utf8DecodeChars rest3).map
                      (fun cs =>
                        Char.ofNat ((b - 240) * 262144 + (b1 - 128) * 4096 +
                          (b2 - 128) * 64 + (b3 - 128)) :: cs)
                  else none
                else none

/-- UTF-8 decoding to a string. -/
def utf8DecodeStr (bs : List Nat) : Option String :=
  (utf8DecodeChars bs).map String.mk

/-! ### MD5 (the external `hashlib.md5` collaborator, made executable) -/

/-- Per-round additive constants of MD5 (`floor(abs(sin(i+1)) * 2^32)`). -/
def md5K : List Nat :=
  [3614090360, 3905402710, 606105819, 3250441966,
   4118548399, 1200080426, 2821735955, 4249261313,
   1770035416, 2336552879, 4294925233, 2304563134,
   1804603682, 4254626195, 2792965006, 1236535329,
   4129170786, 3225465664, 643717713, 3921069994,
   3593408605, 38016083, 3634488961, 3889429448,
   568446438, 3275163606, 4107603335, 1163531501,
   2850285829, 4243563512, 1735328473, 2368359562,
   4294588738, 2272392833, 1839030562, 4259657740,
   2763975236, 1272893353, 4139469664, 3200236656,
   681279174, 3936430074, 3572445317, 76029189,
   3654602809, 3873151461, 530742520, 3299628645,
   4096336452, 1126891415, 2878612391, 4237533241,
   1700485571, 2399980690, 4293915773, 2240044497,
   1873313359, 4264355552, 2734768916, 1309151649,
   4149444226, 3174756917, 718787259, 3951481745]

/-- Per-round left-rotation amounts of MD5. -/
def md5S : List Nat :=
  [7, 12, 17, 22, 7, 12, 17, 22, 7, 12, 17, 22, 7, 12, 17, 22,
   5, 9, 14, 20, 5, 9, 14, 20, 5, 9, 14, 20, 5, 9, 14, 20,
   4, 11, 16, 23, 4, 11, 16, 23, 4, 11, 16, 23, 4, 11, 16, 23,
   6, 10, 15, 21, 6, 10, 15, 21, 6, 10, 15, 21, 6, 10, 15, 21]

/-- Truncation to a 32-bit word. -/
def w32 (x : Nat) : Nat := x % 4294967296

/-- Left rotation of a 32-bit word. -/
def rotl32 (x c : Nat) : Nat := w32 (x <<< c) ||| (x >>> (32 - c))

/-- Round function of MD5 (round selected by the step index). -/
def md5F (i b c d : Nat) : Nat :=
  if i < 16 then (b &&& c) ||| ((4294967295 - b) &&& d)
  else if i < 32 then (d &&& b) ||| ((4294967295 - d) &&& c)
  else if i < 48 then b ^^^ c ^^^ d
  else c ^^^ (b ||| (4294967295 - d))

/-- Message-word index of MD5 step `i`. -/
def md5G (i : Nat) : Nat :=
  if i < 16 then i
  else if i < 32 then (5 * i + 1) % 16
  else if i < 48 then (3 * i + 5) % 16
  else (7 * i) % 16

/-- Little-endian bytes of a number, `k` bytes wide. -/
def leBytes (n : Nat) : Nat → List Nat
  | 0 => []
  | k + 1 => (n % 256) :: leBytes (n / 256) k

/-- Group a byte list into little-endian 32-bit words. -/
def leWords : List Nat → List Nat
  | b0 :: b1 :: b2 :: b3 :: rest =>
      (b0 + 256 * b1 + 65536 * b2 + 16777216 * b3) :: leWords rest
  | _ => []

/-- One MD5 compression of a 16-word chunk into the running state. -/
def md5Chunk (h : Nat × Nat × Nat × Nat) (M : List Nat) : Nat × Nat × Nat × Nat :=
  let step := fun (st : Nat × Nat × Nat × Nat) (i : Nat) =>
    let a := st.1
    let b := st.2.1
    let c := st.2.2.1
    let d := st.2.2.2
    let f := w32 (md5F i b c d + a + md5K.getD i 0 + M.getD (md5G i) 0)
    (d, w32 (b + rotl32 f (md5S.getD i 0)), b, c)
  let r := (List.range 64).foldl step h
  (w32 (h.1 + r.1), w32 (h.2.1 + r.2.1), w32 (h.2.2.1 + r.2.2.1),
   w32 (h.2.2.2 + r.2.2.2))

/-- Consume a padded message 64 bytes at a time (`acc` is the current chunk
being collected, always shorter than 64 bytes). -/
def md5Chunks : List Nat → List Nat → Nat × Nat × Nat × Nat → Nat × Nat × Nat × Nat
  | [], acc, h => if acc = [] then h else md5Chunk h (leWords acc)
  | b :: rest, acc, h =>
      if acc.length = 63 then md5Chunks rest [] (md5Chunk h (leWords (acc ++ [b])))
      else md5Chunks rest (acc ++ [b]) h

/-- MD5 padding: `0x80`, zeros to 56 mod 64, then the bit length as 8
little-endian bytes. -/
def md5Pad (msg : List Nat) : List Nat :=
  msg ++ [128] ++ List.replicate ((119 - msg.length % 64) % 64) 0 ++
    leBytes (8 * msg.length) 8

/-- Lowercase hex digit. -/
def hexDigit (n : Nat) : Char :=
  if n < 10 then Char.ofNat (48 + n) else Char.ofNat (87 + n)

/-- Two lowercase hex digits of a byte. -/
def byteHex (b : Nat) : List Char := [hexDigit (b / 16), hexDigit (b % 16)]

/-- Lowercase hex digest string of a byte list under MD5, as
`hashlib.md5(bytes).hexdigest()` returns it. -/
def md5Hex (msg : List Nat) : String :=
  let r := md5Chunks (md5Pad msg) [] (1732584193, 4023233417, 2562383102, 271733878)
  let bytes := leBytes r.1 4 ++ leBytes r.2.1 4 ++ leBytes r.2.2.1 4 ++ leBytes r.2.2.2 4
  String.mk ((bytes.map byteHex).foldr (· ++ ·) [])

/-- Hash-algorithm lookup, modelled from the spec: the external collaborator
behind `hashlib` exposes, per algorithm name, a hex digest over the
accumulated bytes.  Only `md5` (the one algorithm the spec's concrete
scenarios use) is given a real implementation. -/
def hashlibDigest (algo : String) (data : List Nat) : String :=
  if algo = "md5" then md5Hex data else ""

/-! ### kvnl/specification.py -/

namespace Spec

/-- Characters a key must not contain (the `':=\n'` loop in `check_name`). -/
def forbiddenKeyChar (c : Char) : Bool := c = ':' || c = '=' || c = '\n'

/-- Embedding of `check_name`.  When the key is invalid the source executes
`raise ValueError(f'invalid key: {repr(tok)} ...')`, but `tok` is an
undefined name, so evaluating the f-string raises `NameError` before the
`ValueError` is ever constructed. -/
def check_name (key : String) : Except Err Unit :=
  if key.data.any forbiddenKeyChar then .error (.nameError "tok") else .ok ()

/-- Embedding of `specification.encode`: validate the key, then produce the
bytes of `key` or `key:size`. -/
def encode (key : String) (size : Option Nat) : Except Err (List Nat) :=
  match check_name key with
  | .error e => .error e
  | .ok () =>
      match size with
      | none => .ok (utf8Encode key)
      | some s => .ok (utf8Encode (key ++ ":" ++ String.mk (natToDecimal s)))

/-- Split a character list at its first `':'` (Python
`key.split(':', maxsplit=1)`); `none` when no colon occurs. -/
def splitColon : List Char → List Char × Option (List Char)
  | [] => ([], none)
  | c :: rest =>
      if c = ':' then ([], some rest)
      else
        let r := splitColon rest
        (c :: r.1, r.2)

/-- Embedding of `specification.decode`: ASCII-decode, split on the first
colon, parse the size with Python `int`, reject negatives, re-validate the
key. -/
def decode (spec : List Nat) : Except Err (String × Option Nat) :=
  if spec.any (fun b => 128 ≤ b) then .error .unicodeError
  else
    let r := splitColon (spec.map Char.ofNat)
    match r.2 with
    | some sizeCs =>
        match parsePyInt sizeCs with
        | none => .error (.valueError "invalid literal for int() with base 10")
        | some i =>
            if i < 0 then .error (.valueError "size must be nonnegative")
            else
              match check_name (String.mk r.1) with
              | .error e => .error e
              | .ok () => .ok (String.mk r.1, some i.toNat)
    | none =>
        match check_name (String.mk r.1) with
        | .error e => .error e
        | .ok () => .ok (String.mk r.1, none)

end Spec

/-! ### kvnl/hashing.py -/

namespace Hashing

/-- State of one hash object: its algorithm name and every byte fed so far.
The digest itself is produced by an external `digestOf` function (the
hashlib collaborator), applied to the accumulated bytes. -/
structure HashCtx where
  name : String
  fed : List Nat
deriving DecidableEq, Repr

/-- Embedding of `update_hash`: update the context when one is present. -/
def update_hash (hash : Option HashCtx) (data : List Nat) : Option HashCtx :=
  hash.map (fun h => { h with fed := h.fed ++ data })

/-- Current hex digest of a context (`hash.hexdigest()`). -/
def hexdigest (digestOf : String → List Nat → String) (h : HashCtx) : String :=
  digestOf h.name h.fed

end Hashing

/-! ### kvnl/loading.py -/

namespace Loading

open Hashing

/-- A byte source: the bytes it still holds, plus a schedule answering each
upcoming `readinto` call (`true` = report would-block, i.e. the suspension
marker; entries past the end of the schedule never block).  A delivering
call hands over `min(requested, available)` bytes, and zero bytes mean
end-of-stream — the `BytesIO` behaviour the `loads_*` helpers drive. -/
structure Src where
  blocks : List Bool
  data : List Nat
deriving DecidableEq, Repr

/-- Loop body of `load_some`, driven to completion: a would-block answer
yields a suspension marker and retries the same request, exactly as
`if piece_size is None: yield; continue` does.  `fuel` only bounds the
recursion; `blocks.length + data.length + 1` is always sufficient. -/
def loadSomeGo (size : Option Nat) (delims : List (List Nat)) :
    Nat → List Bool → List Nat → Nat → List Nat →
    Except Err (List Nat × List Bool × List Nat)
  | 0, _, _, _, _ => .error .outOfFuel
  | fuel + 1, true :: bs, data, requestSize, acc =>
      loadSomeGo size delims fuel bs data requestSize acc
  | fuel + 1, blocks, data, requestSize, acc =>
      let bs := blocks.tail
      let piece := min requestSize data.length
      if piece = 0 then
        if (size = none ∨ size = some 0) ∧ delims = [] then .ok (acc, bs, data)
        else .error .eof
      else
        let acc1 := acc ++ data.take piece
        let data1 := data.drop piece
        let req1 :=
          match size with
          | some s => min requestSize (s - acc1.length)
          | none => requestSize
        if req1 = 0 then .ok (acc1, bs, data1)
        else if delims.any (fun d => acc1.drop (acc1.length - d.length) = d) then
          .ok (acc1, bs, data1)
        else loadSomeGo size delims fuel bs data1 req1 acc1

/-- Embedding of `load_some` (driven to completion): read `size` bytes
and/or until one of the `delims` byte strings is matched ([] means no
delimiter was supplied); the result is fed to the hash context at the
end. -/
def load_some (src : Src) (size : Option Nat) (delims : List (List Nat))
    (hash : Option HashCtx) : Except Err (List Nat × Src × Option HashCtx) :=
  if delims.any (fun d => d.length = 0) then
    .error (.valueError "deliminators must be bytes of nonzero length")
  else
    let requestSize := if delims.isEmpty then size.getD 1024 else 1
    match loadSomeGo size delims (src.blocks.length + src.data.length + 1)
        src.blocks src.data requestSize [] with
    | .error e => .error e
    | .ok (result, bs, rest) => .ok (result, ⟨bs, rest⟩, update_hash hash result)

/-- Embedding of `load_specification`: read up to `=` or `\n`; strip a
trailing `=`; a lone newline is the block sentinel; anything else is
malformed. -/
def load_specification (src : Src) (hash : Option HashCtx) :
    Except Err (List Nat × Src × Option HashCtx) :=
  match load_some src none [[61], [10]] hash with
  | .error e => .error e
  | .ok (item, src1, h1) =>
      if item.getLast? = some 61 then .ok (item.dropLast, src1, h1)
      else if item = [10] then .ok (item, src1, h1)
      else .error (.malformedSpecification item)

/-- Embedding of `load_value`: with a declared size, read exactly that many
bytes and then a newline-delimited span that must be exactly `\n`;
without one, read to the first newline and strip it. -/
def load_value (src : Src) (size : Option Nat) (hash : Option HashCtx) :
    Except Err (List Nat × Src × Option HashCtx) :=
  match size with
  | some s =>
      match load_some src (some s) [] hash with
      | .error e => .error e
      | .ok (value, src1, h1) =>
          if value.length ≠ s then
            .error (.corruption ("expected " ++ toString s ++ " bytes in value, got "
              ++ toString value.length))
          else
            match load_some src1 none [[10]] h1 with
            | .error e => .error e
            | .ok (rest, src2, h2) =>
                if rest ≠ [10] then
                  .error (.corruption ("got " ++ toString (rest.length - 1)
                    ++ " extra bytes in value"))
                else .ok (value, src2, h2)
  | none =>
      match load_some src none [[10]] hash with
      | .error e => .error e
      | .ok (value, src1, h1) => .ok (value.dropLast, src1, h1)

/-- A decoded line: the blank-line sentinel or a key/value pair. -/
inductive Line where
  | sentinel : Line
  | kv (key : String) (value : List Nat) : Line
deriving DecidableEq, Repr

/-- Embedding of `load_line`: snapshot the digest, read a specification and
a value (feeding the hash context through `load_some`), and when the key
names the active hash, validate the value against the snapshotted digest. -/
def load_line (digestOf : String → List Nat → String) (src : Src)
    (hash : Option HashCtx) : Except Err (Line × Src × Option HashCtx) :=
  let actualDigest := hash.map (hexdigest digestOf)
  match load_specification src hash with
  | .error e => .error e
  | .ok (spec, src1, h1) =>
      if spec = [10] then .ok (.sentinel, src1, h1)
      else
        match Spec.decode spec with
        | .error .unicodeError => .error (.corruption "ascii decode failed")
        | .error (.valueError msg) => .error (.corruption msg)
        | .error e => .error e
        | .ok (key, size) =>
            match load_value src1 size h1 with
            | .error e => .error e
            | .ok (value, src2, h2) =>
                match hash with
                | some h0 =>
                    if key = h0.name then
                      match utf8DecodeStr value with
                      | none => .error .unicodeError
                      | some expected =>
                          let actual := actualDigest.getD ""
                          if actual ≠ expected then
                            .error (.hashMismatch actual expected)
                          else .ok (.kv key value, src2, h2)
                    else .ok (.kv key value, src2, h2)
                | none => .ok (.kv key value, src2, h2)

/-- Loop body of `load_block` (fuel counts lines; a successful `load_line`
always consumes at least one byte, so `data.length + 1` lines suffice). -/
def loadBlockGo (digestOf : String → List Nat → String) :
    Nat → Src → Option HashCtx → List (String × List Nat) →
    Except Err (List (String × List Nat) × Src × Option HashCtx)
  | 0, _, _, _ => .error .outOfFuel
  | fuel + 1, src, hash, acc =>
      match load_line digestOf src hash with
      | .error e => .error e
      | .ok (.sentinel, src1, h1) => .ok (acc, src1, h1)
      | .ok (.kv k v, src1, h1) => loadBlockGo digestOf fuel src1 h1 (acc ++ [(k, v)])

/-- Embedding of `load_block`: repeat `load_line` until the sentinel,
yielding every non-sentinel line (the hash line included). -/
def load_block (digestOf : String → List Nat → String) (src : Src)
    (hash : Option HashCtx) :
    Except Err (List (String × List Nat) × Src × Option HashCtx) :=
  loadBlockGo digestOf (src.data.length + 1) src hash []

/-- Buffer-driven variant of `load_some` (`loads_some`). -/
def loads_some (input : List Nat) (size : Option Nat) (delims : List (List Nat))
    (hash : Option HashCtx) : Except Err (List Nat × Src × Option HashCtx) :=
  load_some ⟨[], input⟩ size delims hash

/-- Buffer-driven variant of `load_specification`. -/
def loads_specification (input : List Nat) (hash : Option HashCtx) :
    Except Err (List Nat × Src × Option HashCtx) :=
  load_specification ⟨[], input⟩ hash

/-- Buffer-driven variant of `load_value` (`loads_value`). -/
def loads_value (input : List Nat) (size : Option Nat) (hash : Option HashCtx) :
    Except Err (List Nat × Src × Option HashCtx) :=
  load_value ⟨[], input⟩ size hash

/-- Buffer-driven variant of `load_line` (`loads_line`). -/
def loads_line (digestOf : String → List Nat → String) (input : List Nat)
    (hash : Option HashCtx) : Except Err (Line × Src × Option HashCtx) :=
  load_line digestOf ⟨[], input⟩ hash

/-- Buffer-driven variant of `load_block` (`loads_block`). -/
def loads_block (digestOf : String → List Nat → String) (input : List Nat)
    (hash : Option HashCtx) :
    Except Err (List (String × List Nat) × Src × Option HashCtx) :=
  load_block digestOf ⟨[], input⟩ hash

end Loading

/-! ### kvnl/dumping.py -/

namespace Dumping

open Hashing

/-- A byte sink: everything written so far, plus a schedule answering each
upcoming `write` call (`true` = the write would block and reports `None`). -/
structure Sink where
  blocks : List Bool
  written : List Nat
deriving DecidableEq, Repr

/-- One `stream.write(data)` attempt. -/
def sinkWrite (snk : Sink) (data : List Nat) : Option Nat × Sink :=
  match snk.blocks with
  | true :: bs => (none, ⟨bs, snk.written⟩)
  | bs => (some data.length, ⟨bs.tail, snk.written ++ data⟩)

/-- The `key_and_value` argument of `dump_line`: Python `None`, the string
`'\n'`, or a `(key, value)` pair. -/
inductive PLine where
  | noLine : PLine
  | sentinel : PLine
  | kv (key : String) (value : List Nat) : PLine
deriving DecidableEq, Repr

/-- Embedding of `dump_some`: update the hash, then write; a `None` write
count raises `BlockingIOError` — there is no suspension on the dump side. -/
def dump_some (snk : Sink) (data : Option (List Nat)) (hash : Option HashCtx) :
    Except Err (Option Nat × Sink × Option HashCtx) :=
  match data with
  | none => .ok (none, snk, hash)
  | some d =>
      let h1 := update_hash hash d
      match sinkWrite snk d with
      | (none, _) => .error .blockingIOErr
      | (some sz, snk1) => .ok (some sz, snk1, h1)

/-- Embedding of `dump_newline`. -/
def dump_newline (snk : Sink) (hash : Option HashCtx) :
    Except Err (Option Nat × Sink × Option HashCtx) :=
  dump_some snk (some [10]) hash

/-- Embedding of `dump_specification`: validate, write the token and (except
for the sentinel) the `=` separator. -/
def dump_specification (snk : Sink) (spec : Option (List Nat))
    (hash : Option HashCtx) : Except Err (Option Nat × Sink × Option HashCtx) :=
  match spec with
  | none => .ok (none, snk, hash)
  | some sp =>
      if 61 ∈ sp ∨ (sp ≠ [10] ∧ 10 ∈ sp) then .error (.malformedSpecification sp)
      else
        match dump_some snk (some sp) hash with
        | .error e => .error e
        | .ok (m, snk1, h1) =>
            if sp ≠ [10] then
              match dump_some snk1 (some [61]) h1 with
              | .error e => .error e
              | .ok (n, snk2, h2) => .ok (some (m.getD 0 + n.getD 0), snk2, h2)
            else .ok (some (m.getD 0), snk1, h1)

/-- Embedding of `dump_value`: the raw value then a newline. -/
def dump_value (snk : Sink) (value : Option (List Nat)) (hash : Option HashCtx) :
    Except Err (Option Nat × Sink × Option HashCtx) :=
  match value with
  | none => .ok (none, snk, hash)
  | some v =>
      match dump_some snk (some v) hash with
      | .error e => .error e
      | .ok (m, snk1, h1) =>
          match dump_newline snk1 h1 with
          | .error e => .error e
          | .ok (n, snk2, h2) => .ok (some (m.getD 0 + n.getD 0), snk2, h2)

/-- The digest self-check of `dump_line` (`check_hash(hash, value.decode())`
when the key names the active hash). -/
def lineHashCheck (digestOf : String → List Nat → String) (key : String)
    (value : List Nat) (hash : Option HashCtx) : Except Err Unit :=
  match hash with
  | some h0 =>
      if key = h0.name then
        match utf8DecodeStr value with
        | none => .error .unicodeError
        | some expected =>
            let actual := hexdigest digestOf h0
            if actual ≠ expected then .error (.hashMismatch actual expected)
            else .ok ()
      else .ok ()
  | none => .ok ()

/-- Embedding of `dump_line`: an active hash whose name equals the key first
validates the value against the current digest; `sized` defaults to
`len(value) > 1024 or newline in value`; then specification and value are
dumped (both fed to the hash context that was passed in). -/
def dump_line (digestOf : String → List Nat → String) (snk : Sink)
    (line : PLine) (hash : Option HashCtx) (sized : Option Bool) :
    Except Err (Option Nat × Sink × Option HashCtx) :=
  match line with
  | .noLine => .ok (none, snk, hash)
  | .sentinel =>
      match dump_newline snk hash with
      | .error e => .error e
      | .ok (_, snk1, h1) => .ok (none, snk1, h1)
  | .kv key value =>
      match lineHashCheck digestOf key value hash with
      | .error e => .error e
      | .ok () =>
          let sized1 := sized.getD (value.length > 1024 || decide (10 ∈ value))
          match Spec.encode key (if sized1 then some value.length else none) with
          | .error e => .error e
          | .ok spec =>
              match dump_specification snk (some spec) hash with
              | .error e => .error e
              | .ok (m, snk1, h1) =>
                  match dump_value snk1 (some value) h1 with
                  | .error e => .error e
                  | .ok (n, snk2, h2) => .ok (some (m.getD 0 + n.getD 0), snk2, h2)

/-- Fold of `dump_line` over a list of lines with one hash context threaded
through (the `for line in lines` loops of `dump_block`). -/
def dumpLines (digestOf : String → List Nat → String) :
    Sink → List PLine → Option HashCtx → Option Bool →
    Except Err (Sink × Option HashCtx)
  | snk, [], hash, _ => .ok (snk, hash)
  | snk, l :: ls, hash, sized =>
      match dump_line digestOf snk l hash sized with
      | .error e => .error e
      | .ok (_, snk1, h1) => dumpLines digestOf snk1 ls h1 sized

/-- Embedding of `dump_block`: hashed lines, then (with an active hash) one
hash line dumped with *no* hash context, then unhashed lines with no hash
context, then the sentinel newline fed to the hash context. -/
def dump_block (digestOf : String → List Nat → String) (snk : Sink)
    (lines unhashed : List PLine) (hash : Option HashCtx) (sized : Option Bool) :
    Except Err (Sink × Option HashCtx) :=
  match dumpLines digestOf snk lines hash sized with
  | .error e => .error e
  | .ok (snk1, h1) =>
      let hashLineStep : Except Err Sink :=
        match h1 with
        | some hh =>
            match dump_line digestOf snk1
                (.kv hh.name (utf8Encode (hexdigest digestOf hh))) none sized with
            | .error e => .error e
            | .ok (_, snk2, _) => .ok snk2
        | none => .ok snk1
      match hashLineStep with
      | .error e => .error e
      | .ok snk2 =>
          match dumpLines digestOf snk2 unhashed none sized with
          | .error e => .error e
          | .ok (snk3, _) =>
              match dump_newline snk3 h1 with
              | .error e => .error e
              | .ok (_, snk4, h2) => .ok (snk4, h2)

/-- Buffer-backed `dumps_line`: dump to a fresh never-blocking sink and
return the bytes written. -/
def dumps_line (digestOf : String → List Nat → String) (line : PLine)
    (hash : Option HashCtx) (sized : Option Bool) : Except Err (List Nat) :=
  match dump_line digestOf ⟨[], []⟩ line hash sized with
  | .error e => .error e
  | .ok (_, snk, _) => .ok snk.written

/-- Buffer-backed `dumps_block`. -/
def dumps_block (digestOf : String → List Nat → String)
    (lines unhashed : List PLine) (hash : Option HashCtx) (sized : Option Bool) :
    Except Err (List Nat) :=
  match dump_block digestOf ⟨[], []⟩ lines unhashed hash sized with
  | .error e => .error e
  | .ok (snk, _) => .ok snk.written

end Dumping

/-! ### kvnl.py (the standalone flat module) -/

namespace KM

open Hashing

/-- ASCII model of Python `str.isidentifier` (letters, digits, underscore,
not starting with a digit, nonempty; the non-ASCII identifiers Python also
admits are outside the format's ASCII-key scope). -/
def identHeadChar (c : Char) : Bool :=
  (65 ≤ c.toNat && c.toNat ≤ 90) || (97 ≤ c.toNat && c.toNat ≤ 122) || c.toNat == 95

/-- Characters allowed after the first position of an identifier. -/
def identTailChar (c : Char) : Bool :=
  identHeadChar c || (48 ≤ c.toNat && c.toNat ≤ 57)

/-- Test for an (ASCII) Python identifier. -/
def pyIsIdentifier (s : String) : Bool :=
  match s.data with
  | [] => false
  | c :: rest => identHeadChar c && rest.all identTailChar

/-- Embedding of the flat module's `dump_line`: validate the key, default
`sized` to `newline in value`, update the hash over each datum, write
`key[:size]=value\n`.  Returns the bytes written and the updated hash. -/
def dump_line (digestOf : String → List Nat → String) (key : String)
    (value : List Nat) (sized : Option Bool) (hash : Option HashCtx) :
    Except Err (List Nat × Option HashCtx) :=
  if ¬ pyIsIdentifier key then .error (.valueError ("not a valid key: " ++ key))
  else if key.data.any (fun c => 128 ≤ c.toNat) then .error .unicodeError
  else
    let keyB := utf8Encode key
    let sized1 := sized.getD (decide (10 ∈ value))
    let sizeB := if sized1 then 58 :: (natToDecimal value.length).map Char.toNat else []
    let data := keyB ++ sizeB ++ [61] ++ value ++ [10]
    .ok (data, update_hash hash data)

/-- Fold of the flat module's `dump_line` over several items
(`dump_lines`). -/
def dump_lines (digestOf : String → List Nat → String) :
    List (String × List Nat) → Option Bool → Option HashCtx →
    Except Err (List Nat × Option HashCtx)
  | [], _, hash => .ok ([], hash)
  | (k, v) :: rest, sized, hash =>
      match dump_line digestOf k v sized hash with
      | .error e => .error e
      | .ok (bytes, h1) =>
          match dump_lines digestOf rest sized h1 with
          | .error e => .error e
          | .ok (bytesRest, h2) => .ok (bytes ++ bytesRest, h2)

/-- Embedding of the flat module's `dump_block` over a buffer
(`dumps_block`): hashed items, then with an active hash one digest line
dumped with the default (no) hash context, then unhashed items, then the
blank line.  A string `hash` argument is turned into a fresh context. -/
def dumps_block (digestOf : String → List Nat → String)
    (items : List (String × List Nat)) (sized : Option Bool)
    (algo : Option String) (unhashedItems : Option (List (String × List Nat))) :
    Except Err (List Nat) :=
  let hash := algo.map (fun a => (⟨a, []⟩ : HashCtx))
  match dump_lines digestOf items sized hash with
  | .error e => .error e
  | .ok (bytes1, h1) =>
      let hashLine : Except Err (List Nat) :=
        match h1 with
        | some hh =>
            match dump_line digestOf hh.name (utf8Encode (hexdigest digestOf hh))
                none none with
            | .error e => .error e
            | .ok (bytes2, _) => .ok bytes2
        | none => .ok []
      match hashLine with
      | .error e => .error e
      | .ok bytes2 =>
          let unhashedStep : Except Err (List Nat) :=
            match unhashedItems with
            | some u =>
                match dump_lines digestOf u sized none with
                | .error e => .error e
                | .ok (bytes3, _) => .ok bytes3
            | none => .ok []
          match unhashedStep with
          | .error e => .error e
          | .ok bytes3 => .ok (bytes1 ++ bytes2 ++ bytes3 ++ [10])

/-- Key-specification scan of the flat module's `load_line`: read bytes one
at a time; a newline anywhere before `=` means the empty-line result; EOF
on the very first byte is `EOFError`, later `SyntaxError`. -/
def scanKey : List Nat → List Nat → Bool → Except Err (Option (List Nat) × List Nat)
  | [], _, isFirst => .error (if isFirst then .eof else .syntaxError)
  | 10 :: rest, _, _ => .ok (none, rest)
  | 61 :: rest, acc, _ => .ok (some acc, rest)
  | b :: rest, acc, _ => scanKey rest (acc ++ [b]) false

/-- Python `stream.readline()` over a buffer: up to and including the first
newline (or everything when none remains). -/
def pyReadline : List Nat → List Nat × List Nat
  | [] => ([], [])
  | 10 :: rest => ([10], rest)
  | b :: rest =>
      let r := pyReadline rest
      (b :: r.1, r.2)

/-- Python `bytes.rstrip(b'\n')`. -/
def rstripNl (l : List Nat) : List Nat := (l.reverse.dropWhile (fun b => b = 10)).reverse

/-- Embedding of the flat module's `load_line`: scan the key specification,
parse an optional size, read the value (sized, or a stripped line), then
either validate the digest line or feed `keyspec=value\n` to the hash.
Returns `none` for an empty line. -/
def load_line (digestOf : String → List Nat → String) (input : List Nat)
    (hash : Option HashCtx) :
    Except Err (Option (String × List Nat) × List Nat × Option HashCtx) :=
  match scanKey input [] true with
  | .error e => .error e
  | .ok (none, rest) => .ok (none, rest, hash)
  | .ok (some keyspec, rest) =>
      if keyspec.any (fun b => 128 ≤ b) then .error .unicodeError
      else
        let r := Spec.splitColon (keyspec.map Char.ofNat)
        let sizeStep : Except Err (Option Nat) :=
          match r.2 with
          | some sizeCs =>
              match parsePyInt sizeCs with
              | none => .error (.valueError "invalid literal for int() with base 10")
              | some i => if i < 0 then .error .syntaxError else .ok (some i.toNat)
          | none => .ok none
        match sizeStep with
        | .error e => .error e
        | .ok size =>
            let key := String.mk r.1
            let valueStep : Except Err (List Nat × List Nat) :=
              match size with
              | none =>
                  let rl := pyReadline rest
                  .ok (rstripNl rl.1, rl.2)
              | some s =>
                  let value := rest.take s
                  if value.length ≠ s then .error .syntaxError
                  else
                    let rl := pyReadline (rest.drop s)
                    if rl.1 ≠ [10] then .error .syntaxError
                    else .ok (value, rl.2)
            match valueStep with
            | .error e => .error e
            | .ok (value, rest1) =>
                match hash with
                | some h0 =>
                    if key = h0.name then
                      let digest := utf8Encode (hexdigest digestOf h0)
                      if digest ≠ value then
                        .error (.valueError "hash mismatch")
                      else .ok (some (key, value), rest1, hash)
                    else
                      .ok (some (key, value), rest1,
                        update_hash hash (keyspec ++ [61] ++ value ++ [10]))
                | none => .ok (some (key, value), rest1, none)

/-- Loop of the flat module's `load_lines` (fuel counts lines;
`input.length + 1` is always sufficient).  `eofOkay` swallows an `EOFError`
raised at the start of a line. -/
def loadLinesGo (digestOf : String → List Nat → String) :
    Nat → List Nat → Option HashCtx → Bool → List (String × List Nat) →
    Except Err (List (String × List Nat) × List Nat × Option HashCtx)
  | 0, _, _, _, _ => .error .outOfFuel
  | fuel + 1, input, hash, eofOkay, acc =>
      match load_line digestOf input hash with
      | .error .eof => if eofOkay then .ok (acc, input, hash) else .error .eof
      | .error e => .error e
      | .ok (none, rest, h1) => .ok (acc, rest, h1)
      | .ok (some kv0, rest, h1) =>
          loadLinesGo digestOf fuel rest h1 eofOkay (acc ++ [kv0])

/-- The yield/skip loop of the flat module's `load_block`: after the first
line whose key names the hash, the local `hash` variable is set to `None`,
and the line itself is yielded only when `return_hash` is set. -/
def blockFilter (returnHash : Bool) :
    Option String → List (String × List Nat) → List (String × List Nat)
  | _, [] => []
  | hname, (k, v) :: rest =>
      match hname with
      | some a =>
          if k = a then
            (if returnHash then [(k, v)] else []) ++ blockFilter returnHash none rest
          else (k, v) :: blockFilter returnHash (some a) rest
      | none => (k, v) :: blockFilter returnHash none rest

/-- Embedding of the flat module's `load_block` over a buffer: load lines
with `eof_okay=False`, then filter the hash line unless `return_hash`. -/
def load_block (digestOf : String → List Nat → String) (input : List Nat)
    (algo : Option String) (returnHash : Bool) :
    Except Err (List (String × List Nat)) :=
  let hash := algo.map (fun a => (⟨a, []⟩ : HashCtx))
  match loadLinesGo digestOf (input.length + 1) input hash false [] with
  | .error e => .error e
  | .ok (lines, _, _) => .ok (blockFilter returnHash algo lines)

end KM

/-! ### kvnl/stream.py — `LoadingMixIn.load` -/

namespace SM

/-- Embedding of `LoadingMixIn.load` over a buffer source: reset the hash to
a fresh context of the same algorithm, run the package `load_block`, and
skip every line whose key equals the hash's name.  The `includeHash`
parameter mirrors the method's `include_hash` argument, which the body
never consults. -/
def stream_load (digestOf : String → List Nat → String) (input : List Nat)
    (algo : Option String) (includeHash : Bool) :
    Except Err (List (String × List Nat)) :=
  let hash := algo.map (fun a => (⟨a, []⟩ : Hashing.HashCtx))
  match Loading.load_block digestOf ⟨[], input⟩ hash with
  | .error e => .error e
  | .ok (lines, _, _) =>
      .ok (lines.filter (fun l =>
        match algo with
        | some a => decide (l.1 ≠ a)
        | none => true))

end SM

/-! ### Small helpers used by the theorem statements -/

/-- Byte list of an ASCII string (used to state concrete scenarios). -/
def asciiBytes (s : String) : List Nat := s.data.map Char.toNat

/-- Byte list of the decimal rendering of a number. -/
def decimalBytes (n : Nat) : List Nat := (natToDecimal n).map Char.toNat

/-- Test whether a load result is a `Corruption` failure (the exception the
spec calls `FramingError`). -/
def isCorruptionResult (r : Except Err (List Nat × Loading.Src × Option Hashing.HashCtx)) : Bool :=
  match r with
  | .error (.corruption _) => true
  | _ => false

/-- Decidable equality of results, so concrete scenarios can be settled by
`decide`. -/
instance instDecEqExcept {ε α : Type} [DecidableEq ε] [DecidableEq α] :
    DecidableEq (Except ε α) := fun a b =>
  match a, b with
  | .error e1, .error e2 =>
      match decEq e1 e2 with
      | isTrue h => isTrue (by rw [h])
      | isFalse h => isFalse (by intro hc; injection hc; contradiction)
  | .error e1, .ok v2 => isFalse (by intro hc; cases hc)
  | .ok v1, .error e2 => isFalse (by intro hc; cases hc)
  | .ok v1, .ok v2 =>
      match decEq v1 v2 with
      | isTrue h => isTrue (by rw [h])
      | isFalse h => isFalse (by intro hc; injection hc; contradiction)

/-- Projection of a `loadSomeGo` result that forgets the remaining
would-block schedule (suspension markers are control flow, not data). -/
def goProj (r : Except Err (List Nat × List Bool × List Nat)) :
    Except Err (List Nat × List Nat) :=
  r.map (fun t => (t.1, t.2.2))

/-- Projection of a load result that forgets the source's remaining
would-block schedule but keeps the decoded value, the unread bytes and the
hash context. -/
def dropBlocks {α : Type} (r : Except Err (α × Loading.Src × Option Hashing.HashCtx)) :
    Except Err (α × List Nat × Option Hashing.HashCtx) :=
  r.map (fun t => (t.1, t.2.1.data, t.2.2))

set_option maxRecDepth 1000000

/-! ### UTF-8 / ASCII lemmas -/

theorem utf8Char_ascii {c : Char} (h : c.toNat < 128) : utf8Char c = [c.toNat] := by
  unfold utf8Char
  simp [h]

theorem utf8_foldr_acc (cs : List Char) (b : List Nat) :
    cs.foldr (fun c a => utf8Char c ++ a) b =
      cs.foldr (fun c a => utf8Char c ++ a) [] ++ b := by
  induction cs with
  | nil => simp
  | cons c cs ih => simp [List.foldr_cons, ih]

theorem utf8Encode_append (s t : String) :
    utf8Encode (s ++ t) = utf8Encode s ++ utf8Encode t := by
  unfold utf8Encode
  rw [String.data_append, List.foldr_append]
  exact utf8_foldr_acc s.data _

theorem utf8Encode_mk_ascii (cs : List Char) (h : ∀ c ∈ cs, c.toNat < 128) :
    utf8Encode (String.mk cs) = cs.map Char.toNat := by
  induction cs with
  | nil => rfl
  | cons c cs ih =>
      show utf8Char c ++ cs.foldr (fun c a => utf8Char c ++ a) [] = _
      rw [utf8Char_ascii (h c (by simp))]
      have : cs.foldr (fun c a => utf8Char c ++ a) [] = utf8Encode (String.mk cs) := rfl
      rw [this, ih (fun c hc => h c (by simp [hc]))]
      rfl

/-! ### Decimal lemmas -/

theorem natToDecimalAux_eq (n : Nat) : ∀ fuel acc, n ≤ fuel →
    natToDecimalAux fuel n acc = ((Nat.digits 10 n).map digitChar).reverse ++ acc := by
  induction n using Nat.strong_induction_on with
  | _ n ih =>
    intro fuel acc hf
    match fuel, n with
    | fuel, 0 => cases fuel <;> simp [natToDecimalAux]
    | 0, n + 1 => omega
    | fuel + 1, n + 1 =>
        rw [natToDecimalAux]
        rw [ih ((n + 1) / 10) (Nat.div_lt_self (Nat.succ_pos n) (by norm_num))
          fuel _ (by have := Nat.div_lt_self (Nat.succ_pos n) (show 1 < 10 by norm_num); omega)]
        rw [Nat.digits_def' (show 1 < 10 by norm_num) (Nat.succ_pos n)]
        simp

theorem natToDecimal_eq (n : Nat) :
    natToDecimal n =
      if n = 0 then [digitChar 0] else ((Nat.digits 10 n).map digitChar).reverse := by
  unfold natToDecimal
  split
  · rfl
  · rw [natToDecimalAux_eq n n [] le_rfl]
    simp

theorem digitChar_toNat {d : Nat} (h : d < 10) : (digitChar d).toNat = 48 + d := by
  interval_cases d <;> decide

theorem isDigitChar_digitChar {d : Nat} (h : d < 10) : isDigitChar (digitChar d) = true := by
  unfold isDigitChar
  rw [digitChar_toNat h]
  simp
  omega

theorem natToDecimal_all_digits (n : Nat) : (natToDecimal n).all isDigitChar = true := by
  rw [natToDecimal_eq]
  split
  · decide
  · rw [List.all_eq_true]
    intro c hc
    rw [List.mem_reverse, List.mem_map] at hc
    obtain ⟨d, hd, rfl⟩ := hc
    exact isDigitChar_digitChar (Nat.digits_lt_base (by norm_num) hd)

theorem foldr_digits_val (L : List Nat) (h : ∀ d ∈ L, d < 10) :
    L.foldr (fun d a => 10 * a + ((digitChar d).toNat - 48)) 0 = Nat.ofDigits 10 L := by
  induction L with
  | nil => simp [Nat.ofDigits]
  | cons d L ih =>
      rw [List.foldr_cons, Nat.ofDigits_cons, digitChar_toNat (h d (by simp)),
        ih (fun x hx => h x (by simp [hx]))]
      omega

theorem parseDecimal_natToDecimal (n : Nat) : parseDecimal (natToDecimal n) = some n := by
  by_cases h0 : n = 0
  · subst h0; decide
  · have hall := natToDecimal_all_digits n
    have hne : natToDecimal n ≠ [] := by
      rw [natToDecimal_eq]
      simp only [h0, if_false]
      simp [Nat.digits_ne_nil_iff_ne_zero, h0]
    unfold parseDecimal
    rw [if_pos (show (decide (natToDecimal n ≠ []) && (natToDecimal n).all isDigitChar) = true
      by simp [hne, hall])]
    congr 1
    unfold decimalValue
    rw [natToDecimal_eq]
    simp only [h0, if_false]
    rw [List.foldl_reverse]
    rw [List.foldr_map]
    rw [foldr_digits_val _ (fun d hd => Nat.digits_lt_base (by norm_num) hd)]
    exact Nat.ofDigits_digits 10 n

theorem parsePyInt_natToDecimal (n : Nat) : parsePyInt (natToDecimal n) = some (n : Int) := by
  have hp := parseDecimal_natToDecimal n
  have hall := natToDecimal_all_digits n
  cases hd : natToDecimal n with
  | nil => rw [hd] at hp; simp [parseDecimal] at hp
  | cons c rest =>
      rw [hd] at hp hall
      have hc : isDigitChar c = true := by
        rw [List.all_cons] at hall
        exact (Bool.and_eq_true_iff.mp hall).1
      have hc48 : 48 ≤ c.toNat ∧ c.toNat ≤ 57 := by
        simpa [isDigitChar] using hc
      have hminus : c ≠ '-' := by
        intro h
        subst h
        have h45 : ('-').toNat = 45 := rfl
        omega
      have hplus : c ≠ '+' := by
        intro h
        subst h
        have h43 : ('+').toNat = 43 := rfl
        omega
      unfold parsePyInt
      simp only [hminus, hplus, if_false]
      rw [hp]
      rfl

/-! ### Identifier and key-character lemmas -/

theorem identTail_of_head {c : Char} (h : KM.identHeadChar c = true) :
    KM.identTailChar c = true := by
  unfold KM.identTailChar
  rw [h]
  rfl

theorem ident_char_facts {c : Char} (h : KM.identTailChar c = true) :
    c.toNat < 128 ∧ c.toNat ≠ 61 ∧ c.toNat ≠ 10 ∧ c.toNat ≠ 58 := by
  simp [KM.identTailChar, KM.identHeadChar] at h
  omega

theorem pyIdent_chars {key : String} (h : KM.pyIsIdentifier key = true) :
    ∀ c ∈ key.data, KM.identTailChar c = true := by
  unfold KM.pyIsIdentifier at h
  intro c hc
  cases hd : key.data with
  | nil => rw [hd] at hc; cases hc
  | cons c0 rest =>
      rw [hd] at h hc
      simp only [Bool.and_eq_true] at h
      cases hc with
      | head => exact identTail_of_head h.1
      | tail _ hmem => exact (List.all_eq_true.mp h.2) c hmem

theorem ident_byte_facts {key : String} (h : KM.pyIsIdentifier key = true) :
    ∀ b ∈ utf8Encode key, b < 128 ∧ b ≠ 61 ∧ b ≠ 10 ∧ b ≠ 58 := by
  have hchars := pyIdent_chars h
  have hascii : ∀ c ∈ key.data, c.toNat < 128 := fun c hc => (ident_char_facts (hchars c hc)).1
  intro b hb
  rw [show key = String.mk key.data from rfl, utf8Encode_mk_ascii _ hascii] at hb
  rw [List.mem_map] at hb
  obtain ⟨c, hc, rfl⟩ := hb
  exact ident_char_facts (hchars c hc)

theorem utf8Encode_ident (key : String) (h : KM.pyIsIdentifier key = true) :
    utf8Encode key = key.data.map Char.toNat := by
  have hchars := pyIdent_chars h
  exact utf8Encode_mk_ascii key.data (fun c hc => (ident_char_facts (hchars c hc)).1)

theorem check_name_ok {key : String} (h : ∀ c ∈ key.data, KM.identTailChar c = true) :
    Spec.check_name key = .ok () := by
  unfold Spec.check_name
  rw [if_neg]
  rw [List.any_eq_true]
  rintro ⟨c, hc, hforb⟩
  have hf := ident_char_facts (h c hc)
  unfold Spec.forbiddenKeyChar at hforb
  simp only [Bool.or_eq_true, decide_eq_true_eq] at hforb
  rcases hforb with (rfl | rfl) | rfl
  · exact hf.2.2.2 rfl
  · exact hf.2.1 rfl
  · exact hf.2.2.1 rfl

/-! ### splitColon lemmas -/

theorem splitColon_no_colon (cs : List Char) (h : ∀ c ∈ cs, c ≠ ':') :
    Spec.splitColon cs = (cs, none) := by
  induction cs with
  | nil => rfl
  | cons c rest ih =>
      unfold Spec.splitColon
      rw [if_neg (h c (by simp))]
      rw [ih (fun c hc => h c (by simp [hc]))]

theorem splitColon_append (pre post : List Char) (h : ∀ c ∈ pre, c ≠ ':') :
    Spec.splitColon (pre ++ ':' :: post) = (pre, some post) := by
  induction pre with
  | nil => simp [Spec.splitColon]
  | cons c rest ih =>
      rw [List.cons_append]
      unfold Spec.splitColon
      rw [if_neg (h c (by simp))]
      rw [ih (fun c hc => h c (by simp [hc]))]

/-! ### Specification codec lemmas -/

theorem decimalBytes_facts : ∀ n, ∀ b ∈ decimalBytes n, 48 ≤ b ∧ b ≤ 57 := by
  intro n b hb
  unfold decimalBytes at hb
  rw [List.mem_map] at hb
  obtain ⟨c, hc, rfl⟩ := hb
  have := (List.all_eq_true.mp (natToDecimal_all_digits n)) c hc
  simpa [isDigitChar] using this

theorem encode_ident_none (key : String) (h : KM.pyIsIdentifier key = true) :
    Spec.encode key none = .ok (utf8Encode key) := by
  unfold Spec.encode
  rw [check_name_ok (pyIdent_chars h)]

theorem string_eta (s : String) : String.mk s.data = s := rfl

theorem encode_ident_some (key : String) (h : KM.pyIsIdentifier key = true) (n : Nat) :
    Spec.encode key (some n) = .ok (utf8Encode key ++ 58 :: decimalBytes n) := by
  unfold Spec.encode
  rw [check_name_ok (pyIdent_chars h)]
  show Except.ok (utf8Encode (key ++ ":" ++ String.mk (natToDecimal n))) = _
  have hdec : utf8Encode (String.mk (natToDecimal n)) = decimalBytes n := by
    rw [utf8Encode_mk_ascii]
    · rfl
    · intro c hc
      have := (List.all_eq_true.mp (natToDecimal_all_digits n)) c hc
      simp [isDigitChar] at this
      omega
  rw [utf8Encode_append, utf8Encode_append, hdec]
  have hcolon : utf8Encode ":" = [58] := rfl
  rw [hcolon]
  simp

theorem map_ofNat_toNat (cs : List Char) : (cs.map Char.toNat).map Char.ofNat = cs := by
  rw [List.map_map]
  have : (Char.ofNat ∘ Char.toNat) = id := by
    funext c
    exact Char.ofNat_toNat c
  rw [this, List.map_id]

theorem decode_utf8_ident (key : String) (h : KM.pyIsIdentifier key = true) :
    Spec.decode (utf8Encode key) = .ok (key, none) := by
  unfold Spec.decode
  rw [if_neg (by
    rw [List.any_eq_true]
    rintro ⟨b, hb, hge⟩
    have := (ident_byte_facts h b hb).1
    simp only [decide_eq_true_eq] at hge
    omega)]
  rw [utf8Encode_ident key h, map_ofNat_toNat]
  rw [splitColon_no_colon _ (fun c hc heq => (ident_char_facts (pyIdent_chars h c hc)).2.2.2
    (by rw [heq]; rfl))]
  dsimp only
  rw [string_eta, check_name_ok (pyIdent_chars h)]

theorem decode_utf8_ident_size (key : String) (h : KM.pyIsIdentifier key = true) (n : Nat) :
    Spec.decode (utf8Encode key ++ 58 :: decimalBytes n) = .ok (key, some n) := by
  unfold Spec.decode
  rw [if_neg (by
    rw [List.any_eq_true]
    rintro ⟨b, hb, hge⟩
    simp only [decide_eq_true_eq] at hge
    rw [List.mem_append] at hb
    rcases hb with hb | hb
    · have := (ident_byte_facts h b hb).1
      omega
    · rcases hb with _ | hb
      · omega
      · have := decimalBytes_facts n b (by assumption)
        omega)]
  have hmap : (utf8Encode key ++ 58 :: decimalBytes n).map Char.ofNat =
      key.data ++ ':' :: natToDecimal n := by
    rw [List.map_append, utf8Encode_ident key h, map_ofNat_toNat]
    show _ ++ Char.ofNat 58 :: (decimalBytes n).map Char.ofNat = _
    unfold decimalBytes
    rw [map_ofNat_toNat]
  rw [hmap]
  rw [splitColon_append _ _ (fun c hc heq => (ident_char_facts (pyIdent_chars h c hc)).2.2.2
    (by rw [heq]; rfl))]
  dsimp only
  rw [parsePyInt_natToDecimal n]
  dsimp only
  rw [if_neg (by omega)]
  rw [string_eta, check_name_ok (pyIdent_chars h)]
  simp

/-! ### Reader (`load_some`) evaluation lemmas -/

open Loading Hashing

theorem delim_check_append (D : List Nat) (acc : List Nat) (x : Nat) :
    ((D.map (fun b => [b])).any
      (fun dd => (acc ++ [x]).drop ((acc ++ [x]).length - dd.length) = dd)) = decide (x ∈ D) := by
  induction D with
  | nil => simp
  | cons b D ih =>
      simp only [List.map_cons, List.any_cons, ih]
      have hdrop : (acc ++ [x]).drop ((acc ++ [x]).length - 1) = [x] := by
        rw [List.length_append]
        simp only [List.length_cons, List.length_nil]
        rw [show acc.length + (0 + 1) - 1 = acc.length by omega]
        exact List.drop_left acc [x]
      simp only [List.length_cons, List.length_nil, hdrop]
      simp [List.cons_eq_cons, eq_comm]

theorem loadSomeGo_delim_step (D : List Nat) (fuel : Nat) (x : Nat) (l : List Nat) (acc : List Nat) :
    loadSomeGo none (D.map (fun b => [b])) (fuel + 1) [] (x :: l) 1 acc =
      (if x ∈ D then .ok (acc ++ [x], [], l)
       else loadSomeGo none (D.map (fun b => [b])) fuel [] l 1 (acc ++ [x])) := by
  have hcheck := delim_check_append D acc x
  simp only [loadSomeGo, List.length_cons]
  rw [if_neg (by simp)]
  rw [if_neg (by simp)]
  have hmin : min 1 (l.length + 1) = 1 := by omega
  simp only [hmin, List.take_succ_cons, List.take_zero, List.drop_succ_cons, List.drop_zero]
  rw [hcheck]
  by_cases hx : x ∈ D
  · rw [if_pos (by simpa using hx), if_pos hx]
    rfl
  · rw [if_neg (by simpa using hx), if_neg hx]
    rfl

theorem loadSomeGo_delim_empty (D : List Nat) (hD : D ≠ []) (fuel : Nat) (acc : List Nat) :
    loadSomeGo none (D.map (fun b => [b])) (fuel + 1) [] [] 1 acc = .error .eof := by
  simp only [loadSomeGo]
  rw [if_pos (by simp)]
  rw [if_neg]
  simp [hD]

theorem loadSomeGo_delim_scan (D : List Nat) (d : Nat) (rest : List Nat) (hd : d ∈ D) :
    ∀ (pre : List Nat) (fuel : Nat) (acc : List Nat), (∀ b ∈ pre, b ∉ D) →
    pre.length + 1 ≤ fuel →
    loadSomeGo none (D.map (fun b => [b])) fuel [] (pre ++ d :: rest) 1 acc =
      .ok (acc ++ (pre ++ [d]), [], rest) := by
  intro pre
  induction pre with
  | nil =>
      intro fuel acc _ hf
      match fuel, hf with
      | fuel + 1, _ =>
          rw [List.nil_append, loadSomeGo_delim_step, if_pos hd]
          simp
  | cons p pre ih =>
      intro fuel acc hpre hf
      match fuel, hf with
      | fuel + 1, hf2 =>
          rw [List.cons_append, loadSomeGo_delim_step, if_neg (hpre p (by simp))]
          rw [ih fuel (acc ++ [p]) (fun b hb => hpre b (by simp [hb]))
            (by simp only [List.length_cons] at hf2; omega)]
          simp

theorem loadSomeGo_delim_eof (D : List Nat) (hD : D ≠ []) :
    ∀ (input : List Nat) (fuel : Nat) (acc : List Nat), (∀ b ∈ input, b ∉ D) →
    input.length + 1 ≤ fuel →
    loadSomeGo none (D.map (fun b => [b])) fuel [] input 1 acc = .error .eof := by
  intro input
  induction input with
  | nil =>
      intro fuel acc _ hf
      match fuel, hf with
      | fuel + 1, _ => exact loadSomeGo_delim_empty D hD fuel acc
  | cons p l ih =>
      intro fuel acc hin hf
      match fuel, hf with
      | fuel + 1, hf2 =>
          rw [loadSomeGo_delim_step, if_neg (hin p (by simp))]
          exact ih fuel (acc ++ [p]) (fun b hb => hin b (by simp [hb]))
            (by simp only [List.length_cons] at hf2; omega)

theorem loadSomeGo_sized_exact (s : Nat) (input : List Nat) (h : s ≤ input.length) (fuel : Nat) :
    loadSomeGo (some s) [] (fuel + 1) [] input s [] = .ok (input.take s, [], input.drop s) := by
  by_cases h0 : s = 0
  · subst h0
    simp only [loadSomeGo]
    rw [if_pos (by simp)]
    rw [if_pos (by simp)]
    simp
  · have hmin : min s input.length = s := by omega
    simp only [loadSomeGo]
    rw [if_neg (by omega)]
    rw [if_pos]
    · simp [hmin]
    · simp [hmin]

theorem loadSomeGo_sized_empty_eof (s req : Nat) (acc : List Nat) (hs : s ≠ 0) (fuel : Nat) :
    loadSomeGo (some s) [] (fuel + 1) [] [] req acc = .error .eof := by
  simp only [loadSomeGo]
  rw [if_pos (by simp)]
  rw [if_neg (by simp [hs])]

theorem loadSomeGo_sized_eof (s : Nat) (input : List Nat) (h : input.length < s) (fuel : Nat)
    (hf : input.length + 1 ≤ fuel) :
    loadSomeGo (some s) [] fuel [] input s [] = .error .eof := by
  match fuel, hf with
  | fuel + 1, hf =>
      cases input with
      | nil => exact loadSomeGo_sized_empty_eof s s [] (by omega) fuel
      | cons x l =>
          have hmin : s ⊓ (l.length + 1) = l.length + 1 := by
            simp only [List.length_cons] at h
            omega
          have htake : List.take (l.length + 1) (x :: l) = x :: l := by
            apply List.take_of_length_le
            simp
          have hdrop : List.drop (l.length + 1) (x :: l) = [] := by
            apply List.drop_eq_nil_of_le
            simp
          simp only [loadSomeGo, List.length_cons, hmin, htake, hdrop, List.nil_append]
          rw [if_neg (by omega)]
          rw [if_neg]
          · rw [if_neg (by simp)]
            match fuel, (by simp only [List.length_cons] at hf; omega : 1 ≤ fuel) with
            | fuel + 1, _ =>
                exact loadSomeGo_sized_empty_eof s _ _ (by simp only [List.length_cons] at h; omega) fuel
          · simp only [List.length_take, List.length_cons] at h ⊢
            omega

theorem loads_some_delim (D : List Nat) (hD : D ≠ []) (pre : List Nat) (d : Nat)
    (rest : List Nat) (hash : Option HashCtx) (hpre : ∀ b ∈ pre, b ∉ D) (hd : d ∈ D) :
    load_some ⟨[], pre ++ d :: rest⟩ none (D.map (fun b => [b])) hash =
      .ok (pre ++ [d], ⟨[], rest⟩, update_hash hash (pre ++ [d])) := by
  unfold load_some
  rw [if_neg (by simp)]
  have hne : (D.map (fun b => [b])).isEmpty = false := by
    cases D with
    | nil => exact absurd rfl hD
    | cons b D => rfl
  simp only [hne, Bool.false_eq_true, if_false]
  have hfuel : (Src.mk [] (pre ++ d :: rest)).blocks.length +
      (Src.mk [] (pre ++ d :: rest)).data.length + 1 = (pre ++ d :: rest).length + 1 := by simp
  rw [hfuel]
  rw [loadSomeGo_delim_scan D d rest hd pre ((pre ++ d :: rest).length + 1) [] hpre
    (by simp [List.length_append])]
  simp

theorem loads_some_delim_eof (D : List Nat) (hD : D ≠ []) (input : List Nat)
    (hash : Option HashCtx) (hin : ∀ b ∈ input, b ∉ D) :
    load_some ⟨[], input⟩ none (D.map (fun b => [b])) hash = .error .eof := by
  unfold load_some
  rw [if_neg (by simp)]
  have hne : (D.map (fun b => [b])).isEmpty = false := by
    cases D with
    | nil => exact absurd rfl hD
    | cons b D => rfl
  simp only [hne, Bool.false_eq_true, if_false]
  have hfuel : (Src.mk [] input).blocks.length + (Src.mk [] input).data.length + 1 =
      input.length + 1 := by simp
  rw [hfuel]
  rw [loadSomeGo_delim_eof D hD input (input.length + 1) [] hin (by omega)]

theorem loads_some_sized (s : Nat) (input : List Nat) (hash : Option HashCtx)
    (h : s ≤ input.length) :
    load_some ⟨[], input⟩ (some s) [] hash =
      .ok (input.take s, ⟨[], input.drop s⟩, update_hash hash (input.take s)) := by
  unfold load_some
  rw [if_neg (by simp)]
  have hfuel : (Src.mk [] input).blocks.length + (Src.mk [] input).data.length + 1 =
      input.length + 1 := by simp
  simp only [List.isEmpty_nil, if_true, Option.getD_some]
  rw [hfuel]
  rw [loadSomeGo_sized_exact s input h input.length]

theorem loads_some_sized_eof (s : Nat) (input : List Nat) (hash : Option HashCtx)
    (h : input.length < s) :
    load_some ⟨[], input⟩ (some s) [] hash = .error .eof := by
  unfold load_some
  rw [if_neg (by simp)]
  have hfuel : (Src.mk [] input).blocks.length + (Src.mk [] input).data.length + 1 =
      input.length + 1 := by simp
  simp only [List.isEmpty_nil, if_true, Option.getD_some]
  rw [hfuel]
  rw [loadSomeGo_sized_eof s input h (input.length + 1) (by omega)]



theorem loads_specification_token (pre rest : List Nat) (hash : Option HashCtx)
    (hpre : ∀ b ∈ pre, b ≠ 61 ∧ b ≠ 10) :
    load_specification ⟨[], pre ++ 61 :: rest⟩ hash =
      .ok (pre, ⟨[], rest⟩, update_hash hash (pre ++ [61])) := by
  unfold load_specification
  rw [show ([[61], [10]] : List (List Nat)) = ([61, 10] : List Nat).map (fun b => [b]) from rfl]
  rw [loads_some_delim [61, 10] (by simp) pre 61 rest hash
    (by intro b hb; have := hpre b hb; simp [this.1, this.2]) (by simp)]
  dsimp only
  rw [List.getLast?_concat, if_pos rfl, List.dropLast_concat]

theorem loads_specification_sentinel (rest : List Nat) (hash : Option HashCtx) :
    load_specification ⟨[], 10 :: rest⟩ hash =
      .ok ([10], ⟨[], rest⟩, update_hash hash [10]) := by
  unfold load_specification
  rw [show ([[61], [10]] : List (List Nat)) = ([61, 10] : List Nat).map (fun b => [b]) from rfl]
  rw [show (10 : Nat) :: rest = [] ++ 10 :: rest from rfl]
  rw [loads_some_delim [61, 10] (by simp) [] 10 rest hash (by simp) (by simp)]
  dsimp only
  rw [if_neg (by simp), if_pos (by simp)]
  simp

theorem loads_value_unsized (v rest : List Nat) (hash : Option HashCtx) (hv : 10 ∉ v) :
    load_value ⟨[], v ++ 10 :: rest⟩ none hash =
      .ok (v, ⟨[], rest⟩, update_hash hash (v ++ [10])) := by
  unfold load_value
  rw [show ([[10]] : List (List Nat)) = ([10] : List Nat).map (fun b => [b]) from rfl]
  dsimp only
  rw [loads_some_delim [10] (by simp) v 10 rest hash
    (by intro b hb; simp; intro h; subst h; exact hv hb) (by simp)]
  dsimp only
  rw [List.dropLast_concat]

theorem loads_value_sized (v rest : List Nat) (hash : Option HashCtx) :
    load_value ⟨[], v ++ 10 :: rest⟩ (some v.length) hash =
      .ok (v, ⟨[], rest⟩, update_hash (update_hash hash v) [10]) := by
  unfold load_value
  dsimp only
  rw [loads_some_sized v.length (v ++ 10 :: rest) hash (by simp [List.length_append])]
  dsimp only
  rw [List.take_left, List.drop_left]
  rw [if_neg (by simp)]
  rw [show ([[10]] : List (List Nat)) = ([10] : List Nat).map (fun b => [b]) from rfl]
  rw [show (10 : Nat) :: rest = [] ++ 10 :: rest from rfl]
  rw [loads_some_delim [10] (by simp) [] 10 rest _ (by simp) (by simp)]
  dsimp only
  rw [if_neg (by simp)]
  simp

/-! ### Line-level loading lemmas -/

theorem update_hash_append (hash : Option HashCtx) (a b : List Nat) :
    update_hash (update_hash hash a) b = update_hash hash (a ++ b) := by
  cases hash <;> simp [update_hash]

theorem utf8Decode_ascii (cs : List Char) (h : ∀ c ∈ cs, c.toNat < 128) :
    utf8DecodeChars (cs.map Char.toNat) = some cs := by
  induction cs with
  | nil => rfl
  | cons c cs ih =>
      rw [List.map_cons]
      unfold utf8DecodeChars
      rw [if_pos (h c (by simp))]
      rw [ih (fun x hx => h x (by simp [hx]))]
      simp [Char.ofNat_toNat]

theorem utf8DecodeStr_encode_ascii (s : String) (h : ∀ c ∈ s.data, c.toNat < 128) :
    utf8DecodeStr (utf8Encode s) = some s := by
  have henc : utf8Encode s = s.data.map Char.toNat := by
    rw [show utf8Encode s = utf8Encode (String.mk s.data) from rfl, utf8Encode_mk_ascii s.data h]
  rw [henc]
  unfold utf8DecodeStr
  rw [utf8Decode_ascii s.data h]
  simp [string_eta]

theorem loads_line_kv_unsized (digestOf : String → List Nat → String) (key : String)
    (v rest : List Nat) (hash : Option HashCtx) (hkey : KM.pyIsIdentifier key = true)
    (hv : 10 ∉ v) (hname : ∀ h0, hash = some h0 → key ≠ h0.name) :
    load_line digestOf ⟨[], utf8Encode key ++ 61 :: (v ++ 10 :: rest)⟩ hash =
      .ok (.kv key v, ⟨[], rest⟩,
        update_hash hash ((utf8Encode key ++ [61]) ++ (v ++ [10]))) := by
  unfold load_line
  rw [loads_specification_token (utf8Encode key) (v ++ 10 :: rest) hash
    (fun b hb => ⟨(ident_byte_facts hkey b hb).2.1, (ident_byte_facts hkey b hb).2.2.1⟩)]
  dsimp only
  rw [if_neg (by
    intro heq
    have : (10 : Nat) ∈ utf8Encode key := by rw [heq]; simp
    exact (ident_byte_facts hkey 10 this).2.2.1 rfl)]
  rw [decode_utf8_ident key hkey]
  dsimp only
  rw [loads_value_unsized v rest _ hv]
  dsimp only
  cases hash with
  | none => rw [update_hash_append]
  | some h0 =>
      dsimp only
      rw [if_neg (hname h0 rfl)]
      rw [update_hash_append]

theorem loads_line_kv_sized (digestOf : String → List Nat → String) (key : String)
    (v rest : List Nat) (hash : Option HashCtx) (hkey : KM.pyIsIdentifier key = true)
    (hname : ∀ h0, hash = some h0 → key ≠ h0.name) :
    load_line digestOf
        ⟨[], (utf8Encode key ++ 58 :: decimalBytes v.length) ++ 61 :: (v ++ 10 :: rest)⟩ hash =
      .ok (.kv key v, ⟨[], rest⟩,
        update_hash hash (((utf8Encode key ++ 58 :: decimalBytes v.length) ++ [61]) ++ (v ++ [10]))) := by
  unfold load_line
  rw [loads_specification_token (utf8Encode key ++ 58 :: decimalBytes v.length)
    (v ++ 10 :: rest) hash (by
      intro b hb
      rw [List.mem_append] at hb
      rcases hb with hb | hb
      · exact ⟨(ident_byte_facts hkey b hb).2.1, (ident_byte_facts hkey b hb).2.2.1⟩
      · rcases hb with _ | hb
        · exact ⟨by omega, by omega⟩
        · have := decimalBytes_facts v.length b (by assumption)
          exact ⟨by omega, by omega⟩)]
  dsimp only
  rw [if_neg (by
    intro heq
    have : (58 : Nat) ∈ ([10] : List Nat) := by
      rw [← heq]
      simp
    simp at this)]
  rw [decode_utf8_ident_size key hkey v.length]
  dsimp only
  rw [loads_value_sized v rest _]
  dsimp only
  cases hash with
  | none => rw [update_hash_append, update_hash_append]
  | some h0 =>
      dsimp only
      rw [if_neg (hname h0 rfl)]
      rw [update_hash_append, update_hash_append]

theorem loads_line_hash_line (digestOf : String → List Nat → String) (h0 : HashCtx)
    (rest : List Nat) (hkey : KM.pyIsIdentifier h0.name = true)
    (hdigest : ∀ c ∈ (digestOf h0.name h0.fed).data, c.toNat < 128 ∧ c.toNat ≠ 10) :
    load_line digestOf
        ⟨[], utf8Encode h0.name ++ 61 :: (utf8Encode (digestOf h0.name h0.fed) ++ 10 :: rest)⟩
        (some h0) =
      .ok (.kv h0.name (utf8Encode (digestOf h0.name h0.fed)), ⟨[], rest⟩,
        update_hash (some h0)
          ((utf8Encode h0.name ++ [61]) ++ (utf8Encode (digestOf h0.name h0.fed) ++ [10]))) := by
  unfold load_line
  rw [loads_specification_token (utf8Encode h0.name)
    (utf8Encode (digestOf h0.name h0.fed) ++ 10 :: rest) (some h0)
    (fun b hb => ⟨(ident_byte_facts hkey b hb).2.1, (ident_byte_facts hkey b hb).2.2.1⟩)]
  dsimp only
  rw [if_neg (by
    intro heq
    have : (10 : Nat) ∈ utf8Encode h0.name := by rw [heq]; simp
    exact (ident_byte_facts hkey 10 this).2.2.1 rfl)]
  rw [decode_utf8_ident h0.name hkey]
  dsimp only
  rw [loads_value_unsized (utf8Encode (digestOf h0.name h0.fed)) rest _ (by
    intro hmem
    rw [show utf8Encode (digestOf h0.name h0.fed) =
        utf8Encode (String.mk (digestOf h0.name h0.fed).data) from rfl,
      utf8Encode_mk_ascii _ (fun c hc => (hdigest c hc).1)] at hmem
    rw [List.mem_map] at hmem
    obtain ⟨c, hc, hceq⟩ := hmem
    exact (hdigest c hc).2 hceq)]
  dsimp only
  rw [if_pos rfl]
  rw [utf8DecodeStr_encode_ascii _ (fun c hc => (hdigest c hc).1)]
  dsimp only
  rw [if_neg (by
    unfold Hashing.hexdigest
    simp)]
  rw [update_hash_append]

/-! ### Writer (`dump_*`) evaluation lemmas -/

open Dumping

theorem dump_some_ok (w : List Nat) (d : List Nat) (h : Option HashCtx) :
    dump_some ⟨[], w⟩ (some d) h = .ok (some d.length, ⟨[], w ++ d⟩, update_hash h d) := rfl

theorem dump_newline_ok (w : List Nat) (h : Option HashCtx) :
    dump_newline ⟨[], w⟩ h = .ok (some 1, ⟨[], w ++ [10]⟩, update_hash h [10]) := rfl

theorem dump_specification_ok (w sp : List Nat) (h : Option HashCtx)
    (hsp : 61 ∉ sp ∧ 10 ∉ sp) :
    dump_specification ⟨[], w⟩ (some sp) h =
      .ok (some (sp.length + 1), ⟨[], w ++ (sp ++ [61])⟩, update_hash h (sp ++ [61])) := by
  unfold dump_specification
  dsimp only
  rw [if_neg (by
    rintro (hmem | ⟨_, hmem⟩)
    · exact hsp.1 hmem
    · exact hsp.2 hmem)]
  rw [dump_some_ok]
  dsimp only
  rw [if_pos (by
    intro heq
    exact hsp.2 (by rw [heq]; simp))]
  rw [dump_some_ok]
  dsimp only
  rw [update_hash_append]
  simp [List.append_assoc]

theorem dump_value_ok (w v : List Nat) (h : Option HashCtx) :
    dump_value ⟨[], w⟩ (some v) h =
      .ok (some (v.length + 1), ⟨[], w ++ (v ++ [10])⟩, update_hash h (v ++ [10])) := by
  unfold dump_value
  dsimp only
  rw [dump_some_ok]
  dsimp only
  rw [dump_newline_ok]
  dsimp only
  rw [update_hash_append]
  simp [List.append_assoc]

theorem lineHashCheck_skip (digestOf : String → List Nat → String) (key : String)
    (v : List Nat) (hash : Option HashCtx)
    (hname : ∀ h0, hash = some h0 → key ≠ h0.name) :
    lineHashCheck digestOf key v hash = .ok () := by
  cases hash with
  | none => rfl
  | some h0 =>
      unfold lineHashCheck
      dsimp only
      rw [if_neg (hname h0 rfl)]

theorem dump_line_kv (digestOf : String → List Nat → String) (w : List Nat) (key : String)
    (v : List Nat) (hash : Option HashCtx) (sized : Option Bool) (sized1 : Bool)
    (hkey : KM.pyIsIdentifier key = true)
    (hname : ∀ h0, hash = some h0 → key ≠ h0.name)
    (hs : sized.getD (v.length > 1024 || decide (10 ∈ v)) = sized1) :
    dump_line digestOf ⟨[], w⟩ (.kv key v) hash sized =
      .ok (some ((utf8Encode key ++ (if sized1 then 58 :: decimalBytes v.length else [])).length
            + 1 + (v.length + 1)),
        ⟨[], w ++ ((utf8Encode key ++ (if sized1 then 58 :: decimalBytes v.length else []))
            ++ [61] ++ (v ++ [10]))⟩,
        update_hash hash ((utf8Encode key ++ (if sized1 then 58 :: decimalBytes v.length else []))
            ++ [61] ++ (v ++ [10]))) := by
  unfold dump_line
  dsimp only
  rw [lineHashCheck_skip digestOf key v hash hname]
  dsimp only
  rw [hs]
  have hspec : Spec.encode key (if sized1 then some v.length else none) =
      .ok (utf8Encode key ++ (if sized1 then 58 :: decimalBytes v.length else [])) := by
    cases sized1 with
    | false => rw [if_neg (by simp), encode_ident_none key hkey]; simp
    | true => rw [if_pos rfl, encode_ident_some key hkey v.length]; simp
  rw [hspec]
  dsimp only
  rw [dump_specification_ok _ _ _ (by
    constructor
    · intro hmem
      rw [List.mem_append] at hmem
      rcases hmem with hmem | hmem
      · exact (ident_byte_facts hkey 61 hmem).2.1 rfl
      · cases sized1 with
        | false => simp at hmem
        | true =>
            simp only [if_true] at hmem
            rw [List.mem_cons] at hmem
            rcases hmem with heq | hmem
            · omega
            · have := decimalBytes_facts v.length 61 hmem
              omega
    · intro hmem
      rw [List.mem_append] at hmem
      rcases hmem with hmem | hmem
      · exact (ident_byte_facts hkey 10 hmem).2.2.1 rfl
      · cases sized1 with
        | false => simp at hmem
        | true =>
            simp only [if_true] at hmem
            rw [List.mem_cons] at hmem
            rcases hmem with heq | hmem
            · omega
            · have := decimalBytes_facts v.length 10 hmem
              omega)]
  dsimp only
  rw [dump_value_ok]
  dsimp only
  rw [update_hash_append]
  simp [List.append_assoc]

/-! ### Suspension-transparency lemmas -/

theorem loadSomeGo_fuel_irrel (size : Option Nat) (delims : List (List Nat)) :
    ∀ f1 : Nat, ∀ (data : List Nat) (rs : Nat) (acc : List Nat) (f2 : Nat),
    data.length + 1 ≤ f1 → data.length + 1 ≤ f2 →
    loadSomeGo size delims f1 [] data rs acc = loadSomeGo size delims f2 [] data rs acc := by
  intro f1
  induction f1 with
  | zero => intro data rs acc f2 h1 h2; omega
  | succ f1 ih =>
      intro data rs acc f2 h1 h2
      match f2, h2 with
      | f2 + 1, h2 =>
          simp only [loadSomeGo]
          by_cases hp : min rs data.length = 0
          · rw [if_pos hp, if_pos hp]
          · rw [if_neg hp, if_neg hp]
            by_cases hr : (match size with
                | some s => min rs (s - (acc ++ data.take (min rs data.length)).length)
                | none => rs) = 0
            · rw [if_pos hr, if_pos hr]
            · rw [if_neg hr, if_neg hr]
              by_cases hd : delims.any (fun d =>
                  (acc ++ data.take (min rs data.length)).drop
                    ((acc ++ data.take (min rs data.length)).length - d.length) = d) = true
              · rw [if_pos hd, if_pos hd]
              · rw [if_neg hd, if_neg hd]
                apply ih
                · have hlen : (data.drop (min rs data.length)).length =
                      data.length - min rs data.length := by simp
                  omega
                · have hlen : (data.drop (min rs data.length)).length =
                      data.length - min rs data.length := by simp
                  omega

theorem loadSomeGo_nil_blocks (size : Option Nat) (delims : List (List Nat)) :
    ∀ (fuel : Nat) (data : List Nat) (rs : Nat) (acc : List Nat) (r : List Nat)
      (bs' : List Bool) (data' : List Nat),
    loadSomeGo size delims fuel [] data rs acc = .ok (r, bs', data') → bs' = [] := by
  intro fuel
  induction fuel with
  | zero => intro data rs acc r bs' data' h; simp [loadSomeGo] at h
  | succ fuel ih =>
      intro data rs acc r bs' data' h
      simp only [loadSomeGo] at h
      by_cases hp : min rs data.length = 0
      · rw [if_pos hp] at h
        split at h
        · injection h with h1
          injection h1 with _ h2
          injection h2 with h3
          exact h3.symm
        · cases h
      · rw [if_neg hp] at h
        split at h
        · injection h with h1
          injection h1 with _ h2
          injection h2 with h3
          exact h3.symm
        · split at h
          · injection h with h1
            injection h1 with _ h2
            injection h2 with h3
            exact h3.symm
          · exact ih _ _ _ _ _ _ h

theorem loadSomeGo_block_transparent (size : Option Nat) (delims : List (List Nat)) :
    ∀ (fuel1 : Nat) (bs : List Bool) (data : List Nat) (rs : Nat) (acc : List Nat),
    bs.length + data.length + 1 ≤ fuel1 →
    goProj (loadSomeGo size delims fuel1 bs data rs acc) =
      goProj (loadSomeGo size delims (data.length + 1) [] data rs acc) := by
  intro fuel1
  induction fuel1 with
  | zero => intro bs data rs acc h1; omega
  | succ f1 ih =>
      intro bs data rs acc h1
      match bs with
      | true :: bs' =>
          rw [show loadSomeGo size delims (f1 + 1) (true :: bs') data rs acc =
            loadSomeGo size delims f1 bs' data rs acc from rfl]
          exact ih bs' data rs acc (by simp only [List.length_cons] at h1; omega)
      | [] =>
          rw [loadSomeGo_fuel_irrel size delims (f1 + 1) data rs acc (data.length + 1)
            (by simpa using h1) (by omega)]
      | false :: bs' =>
          conv_lhs => rw [show (false : Bool) :: bs' = (false :: bs' : List Bool) from rfl]
          simp only [loadSomeGo]
          by_cases hp : min rs data.length = 0
          · rw [if_pos hp, if_pos hp]
            split
            · simp [goProj, Except.map]
            · rfl
          · rw [if_neg hp, if_neg hp]
            by_cases hr : (match size with
                | some s => min rs (s - (acc ++ data.take (min rs data.length)).length)
                | none => rs) = 0
            · rw [if_pos hr, if_pos hr]
              simp [goProj, Except.map]
            · rw [if_neg hr, if_neg hr]
              by_cases hd : delims.any (fun d =>
                  (acc ++ data.take (min rs data.length)).drop
                    ((acc ++ data.take (min rs data.length)).length - d.length) = d) = true
              · rw [if_pos hd, if_pos hd]
                simp [goProj, Except.map]
              · rw [if_neg hd, if_neg hd]
                have hlen : (data.drop (min rs data.length)).length =
                    data.length - min rs data.length := by simp
                refine Eq.trans (ih bs' _ _ _ ?_) ?_
                · simp only [List.length_cons] at h1
                  omega
                · exact congrArg goProj (loadSomeGo_fuel_irrel size delims _ _ _ _
                    data.length le_rfl (by omega))

theorem load_some_nil_blocks (input : List Nat) (size : Option Nat) (delims : List (List Nat))
    (hash : Option HashCtx) (r : List Nat) (src1 : Src) (h1 : Option HashCtx)
    (h : load_some ⟨[], input⟩ size delims hash = .ok (r, src1, h1)) : src1.blocks = [] := by
  unfold load_some at h
  by_cases hz : delims.any (fun d => d.length = 0) = true
  · rw [if_pos hz] at h
    cases h
  · rw [if_neg hz] at h
    dsimp only at h
    cases hgo : loadSomeGo size delims ((Src.mk [] input).blocks.length +
        (Src.mk [] input).data.length + 1) (Src.mk [] input).blocks (Src.mk [] input).data
        (if delims.isEmpty then size.getD 1024 else 1) [] with
    | error e => rw [hgo] at h; cases h
    | ok t =>
        rw [hgo] at h
        obtain ⟨rr, bs1, d1⟩ := t
        injection h with h2
        injection h2 with _ h3
        injection h3 with h4 _
        have := loadSomeGo_nil_blocks size delims _ _ _ _ _ _ _ hgo
        rw [← h4]
        exact this

theorem load_some_transparent (src : Src) (size : Option Nat) (delims : List (List Nat))
    (hash : Option HashCtx) :
    dropBlocks (load_some src size delims hash) =
      dropBlocks (load_some ⟨[], src.data⟩ size delims hash) := by
  unfold load_some
  by_cases hz : delims.any (fun d => d.length = 0) = true
  · rw [if_pos hz, if_pos hz]
  · rw [if_neg hz, if_neg hz]
    have hgo := loadSomeGo_block_transparent size delims
      (src.blocks.length + src.data.length + 1) src.blocks src.data
      (if delims.isEmpty then size.getD 1024 else 1) [] (by omega)
    dsimp only
    simp only [List.length_nil, Nat.zero_add]
    cases hL : loadSomeGo size delims (src.blocks.length + src.data.length + 1)
        src.blocks src.data (if delims.isEmpty then size.getD 1024 else 1) [] with
    | error e =>
        cases hR : loadSomeGo size delims (src.data.length + 1) [] src.data
            (if delims.isEmpty then size.getD 1024 else 1) [] with
        | error e2 =>
            rw [hL, hR] at hgo
            simp only [goProj, Except.map] at hgo
            injection hgo with hgo2
            rw [hgo2]
        | ok t =>
            rw [hL, hR] at hgo
            simp [goProj, Except.map] at hgo
    | ok t =>
        cases hR : loadSomeGo size delims (src.data.length + 1) [] src.data
            (if delims.isEmpty then size.getD 1024 else 1) [] with
        | error e2 =>
            rw [hL, hR] at hgo
            simp [goProj, Except.map] at hgo
        | ok t2 =>
            rw [hL, hR] at hgo
            obtain ⟨r1, bs1, d1⟩ := t
            obtain ⟨r2, bs2, d2⟩ := t2
            simp only [goProj, Except.map] at hgo
            injection hgo with hgo2
            injection hgo2 with hr hd
            subst hr
            subst hd
            rfl

theorem dropBlocks_cases {α : Type} {A B : Except Err (α × Src × Option HashCtx)}
    (h : dropBlocks A = dropBlocks B) :
    (∃ e, A = .error e ∧ B = .error e) ∨
    (∃ x s1 s2 hh, A = .ok (x, s1, hh) ∧ B = .ok (x, s2, hh) ∧ s1.data = s2.data) := by
  cases A with
  | error e =>
      cases B with
      | error e2 =>
          simp only [dropBlocks, Except.map] at h
          injection h with h2
          exact Or.inl ⟨e, rfl, by rw [h2]⟩
      | ok t => simp [dropBlocks, Except.map] at h
  | ok t =>
      cases B with
      | error e2 => simp [dropBlocks, Except.map] at h
      | ok t2 =>
          obtain ⟨x1, s1, h1⟩ := t
          obtain ⟨x2, s2, h2⟩ := t2
          simp only [dropBlocks, Except.map, Except.ok.injEq, Prod.mk.injEq] at h
          obtain ⟨hx, hd, hh⟩ := h
          subst hx
          subst hh
          exact Or.inr ⟨x1, s1, s2, h1, rfl, rfl, hd⟩

theorem load_specification_transparent (src : Src) (hash : Option HashCtx) :
    dropBlocks (load_specification src hash) =
      dropBlocks (load_specification ⟨[], src.data⟩ hash) := by
  unfold load_specification
  rcases dropBlocks_cases (load_some_transparent src none [[61], [10]] hash) with
    ⟨e, hA, hB⟩ | ⟨x, s1, s2, hh, hA, hB, hdata⟩
  · rw [hA, hB]
  · rw [hA, hB]
    dsimp only
    split_ifs <;> simp [dropBlocks, Except.map, hdata]

theorem load_value_transparent (src : Src) (size : Option Nat) (hash : Option HashCtx) :
    dropBlocks (load_value src size hash) =
      dropBlocks (load_value ⟨[], src.data⟩ size hash) := by
  unfold load_value
  cases size with
  | none =>
      dsimp only
      rcases dropBlocks_cases (load_some_transparent src none [[10]] hash) with
        ⟨e, hA, hB⟩ | ⟨x, s1, s2, hh, hA, hB, hdata⟩
      · rw [hA, hB]
      · rw [hA, hB]
        simp [dropBlocks, Except.map, hdata]
  | some s =>
      dsimp only
      rcases dropBlocks_cases (load_some_transparent src (some s) [] hash) with
        ⟨e, hA, hB⟩ | ⟨x, s1, s2, hh, hA, hB, hdata⟩
      · rw [hA, hB]
      · rw [hA, hB]
        dsimp only
        by_cases hlen : x.length ≠ s
        · rw [if_pos hlen, if_pos hlen]
        · rw [if_neg hlen, if_neg hlen]
          have ht2 := load_some_transparent s1 none [[10]] hh
          have ht3 := load_some_transparent s2 none [[10]] hh
          rw [hdata] at ht2
          rcases dropBlocks_cases (ht2.trans ht3.symm) with
            ⟨e, hA2, hB2⟩ | ⟨x2, s3, s4, hh2, hA2, hB2, hdata2⟩
          · rw [hA2, hB2]
          · rw [hA2, hB2]
            dsimp only
            split_ifs <;> simp [dropBlocks, Except.map, hdata2]

theorem load_line_transparent (digestOf : String → List Nat → String) (src : Src)
    (hash : Option HashCtx) :
    dropBlocks (load_line digestOf src hash) =
      dropBlocks (load_line digestOf ⟨[], src.data⟩ hash) := by
  unfold load_line
  rcases dropBlocks_cases (load_specification_transparent src hash) with
    ⟨e, hA, hB⟩ | ⟨x, s1, s2, hh, hA, hB, hdata⟩
  · rw [hA, hB]
  · rw [hA, hB]
    dsimp only
    by_cases hsent : x = [10]
    · rw [if_pos hsent, if_pos hsent]
      simp [dropBlocks, Except.map, hdata]
    · rw [if_neg hsent, if_neg hsent]
      cases hdec : Spec.decode x with
      | error e =>
          cases e <;> rfl
      | ok kv0 =>
          obtain ⟨key, size⟩ := kv0
          dsimp only
          have ht2 := load_value_transparent s1 size hh
          have ht3 := load_value_transparent s2 size hh
          rw [hdata] at ht2
          rcases dropBlocks_cases (ht2.trans ht3.symm) with
            ⟨e, hA2, hB2⟩ | ⟨x2, s3, s4, hh2, hA2, hB2, hdata2⟩
          · rw [hA2, hB2]
          · rw [hA2, hB2]
            dsimp only
            cases hash with
            | none => simp [dropBlocks, Except.map, hdata2]
            | some h0 =>
                dsimp only
                by_cases hname : key = h0.name
                · rw [if_pos hname, if_pos hname]
                  cases utf8DecodeStr x2 with
                  | none => rfl
                  | some expected =>
                      dsimp only
                      split_ifs <;> simp [dropBlocks, Except.map, hdata2]
                · rw [if_neg hname, if_neg hname]
                  simp [dropBlocks, Except.map, hdata2]

theorem loadBlockGo_transparent (digestOf : String → List Nat → String) :
    ∀ (fuel : Nat) (src : Src) (hash : Option HashCtx) (acc : List (String × List Nat)),
    dropBlocks (loadBlockGo digestOf fuel src hash acc) =
      dropBlocks (loadBlockGo digestOf fuel ⟨[], src.data⟩ hash acc) := by
  intro fuel
  induction fuel with
  | zero => intro src hash acc; rfl
  | succ fuel ih =>
      intro src hash acc
      simp only [loadBlockGo]
      rcases dropBlocks_cases (load_line_transparent digestOf src hash) with
        ⟨e, hA, hB⟩ | ⟨line, s1, s2, hh, hA, hB, hdata⟩
      · rw [hA, hB]
      · rw [hA, hB]
        cases line with
        | sentinel => simp [dropBlocks, Except.map, hdata]
        | kv k v =>
            dsimp only
            calc dropBlocks (loadBlockGo digestOf fuel s1 hh (acc ++ [(k, v)]))
                = dropBlocks (loadBlockGo digestOf fuel ⟨[], s1.data⟩ hh (acc ++ [(k, v)])) :=
                  ih s1 hh (acc ++ [(k, v)])
              _ = dropBlocks (loadBlockGo digestOf fuel ⟨[], s2.data⟩ hh (acc ++ [(k, v)])) := by
                  rw [hdata]
              _ = dropBlocks (loadBlockGo digestOf fuel s2 hh (acc ++ [(k, v)])) :=
                  (ih s2 hh (acc ++ [(k, v)])).symm

theorem load_block_transparent (digestOf : String → List Nat → String) (src : Src)
    (hash : Option HashCtx) :
    dropBlocks (load_block digestOf src hash) =
      dropBlocks (load_block digestOf ⟨[], src.data⟩ hash) := by
  unfold load_block
  exact loadBlockGo_transparent digestOf (src.data.length + 1) src hash []

/-! ### Dump-side structural lemmas -/

theorem dump_specification_delta (w sp : List Nat) (hash : Option HashCtx)
    (c : Option Nat) (snk1 : Sink) (h1 : Option HashCtx)
    (h : dump_specification ⟨[], w⟩ (some sp) hash = .ok (c, snk1, h1)) :
    ∃ delta, snk1 = ⟨[], w ++ delta⟩ ∧ h1 = update_hash hash delta := by
  unfold dump_specification at h
  dsimp only at h
  by_cases hbad : 61 ∈ sp ∨ (sp ≠ [10] ∧ 10 ∈ sp)
  · rw [if_pos hbad] at h
    cases h
  · rw [if_neg hbad] at h
    rw [dump_some_ok] at h
    dsimp only at h
    by_cases hnl : sp ≠ [10]
    · rw [if_pos hnl] at h
      rw [dump_some_ok] at h
      dsimp only at h
      injection h with h2
      injection h2 with _ h3
      injection h3 with h4 h5
      exact ⟨sp ++ [61], by rw [← h4, List.append_assoc], by rw [← h5, update_hash_append]⟩
    · rw [if_neg hnl] at h
      injection h with h2
      injection h2 with _ h3
      injection h3 with h4 h5
      exact ⟨sp, by rw [← h4], by rw [← h5]⟩

theorem dump_line_feeds_written (digestOf : String → List Nat → String) (w : List Nat)
    (line : PLine) (hash : Option HashCtx) (sized : Option Bool)
    (c : Option Nat) (snk1 : Sink) (h1 : Option HashCtx)
    (h : dump_line digestOf ⟨[], w⟩ line hash sized = .ok (c, snk1, h1)) :
    ∃ delta, snk1 = ⟨[], w ++ delta⟩ ∧ h1 = update_hash hash delta := by
  cases line with
  | noLine =>
      injection h with h2
      injection h2 with _ h3
      injection h3 with h4 h5
      exact ⟨[], by rw [← h4]; simp, by rw [← h5]; cases hash <;> simp [update_hash]⟩
  | sentinel =>
      unfold dump_line at h
      rw [dump_newline_ok] at h
      dsimp only at h
      injection h with h2
      injection h2 with _ h3
      injection h3 with h4 h5
      exact ⟨[10], by rw [← h4], by rw [← h5]⟩
  | kv key v =>
      unfold dump_line at h
      dsimp only at h
      cases hchk : lineHashCheck digestOf key v hash with
      | error e => rw [hchk] at h; cases h
      | ok u =>
          rw [hchk] at h
          dsimp only at h
          cases henc : Spec.encode key (if sized.getD (v.length > 1024 || decide (10 ∈ v))
              then some v.length else none) with
          | error e => rw [henc] at h; cases h
          | ok sp =>
              rw [henc] at h
              dsimp only at h
              cases hds : dump_specification ⟨[], w⟩ (some sp) hash with
              | error e => rw [hds] at h; cases h
              | ok t =>
                  obtain ⟨m, snkA, hA⟩ := t
                  rw [hds] at h
                  dsimp only at h
                  obtain ⟨d1, hsnkA, hhA⟩ := dump_specification_delta w sp hash m snkA hA hds
                  subst hsnkA
                  rw [dump_value_ok] at h
                  dsimp only at h
                  injection h with h2
                  injection h2 with _ h3
                  injection h3 with h4 h5
                  refine ⟨d1 ++ (v ++ [10]), ?_, ?_⟩
                  · rw [← h4]
                    simp [List.append_assoc]
                  · rw [← h5, hhA, update_hash_append]

theorem dump_line_hash_isSome (digestOf : String → List Nat → String) (snk : Sink)
    (line : PLine) (h0 : HashCtx) (sized : Option Bool)
    (c : Option Nat) (snk1 : Sink) (h1 : Option HashCtx)
    (h : dump_line digestOf snk line (some h0) sized = .ok (c, snk1, h1)) :
    ∃ hh, h1 = some hh := by
  cases line with
  | noLine =>
      injection h with h2
      injection h2 with _ h3
      injection h3 with _ h5
      exact ⟨h0, h5.symm⟩
  | sentinel =>
      unfold dump_line dump_newline dump_some at h
      dsimp only at h
      cases hw : sinkWrite snk [10] with
      | mk sz snk2 =>
          rw [hw] at h
          cases sz with
          | none => cases h
          | some n =>
              dsimp only at h
              injection h with h2
              injection h2 with _ h3
              injection h3 with _ h5
              exact ⟨_, h5.symm⟩
  | kv key v =>
      unfold dump_line at h
      dsimp only at h
      cases hchk : lineHashCheck digestOf key v (some h0) with
      | error e => rw [hchk] at h; cases h
      | ok u =>
          rw [hchk] at h
          dsimp only at h
          cases henc : Spec.encode key (if sized.getD (v.length > 1024 || decide (10 ∈ v))
              then some v.length else none) with
          | error e => rw [henc] at h; cases h
          | ok sp =>
              rw [henc] at h
              dsimp only at h
              cases hds : dump_specification snk (some sp) (some h0) with
              | error e => rw [hds] at h; cases h
              | ok t =>
                  obtain ⟨m, snkA, hA⟩ := t
                  rw [hds] at h
                  dsimp only at h
                  have hAsome : ∃ hh, hA = some hh := by
                    unfold dump_specification at hds
                    dsimp only at hds
                    by_cases hbad : 61 ∈ sp ∨ (sp ≠ [10] ∧ 10 ∈ sp)
                    · rw [if_pos hbad] at hds; cases hds
                    · rw [if_neg hbad] at hds
                      unfold dump_some at hds
                      dsimp only at hds
                      cases hw : sinkWrite snk sp with
                      | mk sz snkB =>
                          rw [hw] at hds
                          cases sz with
                          | none => cases hds
                          | some n =>
                              dsimp only at hds
                              by_cases hnl : sp ≠ [10]
                              · rw [if_pos hnl] at hds
                                cases hw2 : sinkWrite snkB [61] with
                                | mk sz2 snkC =>
                                    rw [hw2] at hds
                                    cases sz2 with
                                    | none => cases hds
                                    | some n2 =>
                                        dsimp only at hds
                                        injection hds with hds2
                                        injection hds2 with _ hds3
                                        injection hds3 with _ h5
                                        exact ⟨_, h5.symm⟩
                              · rw [if_neg hnl] at hds
                                injection hds with hds2
                                injection hds2 with _ hds3
                                injection hds3 with _ h5
                                exact ⟨_, h5.symm⟩
                  obtain ⟨hh, hAeq⟩ := hAsome
                  subst hAeq
                  unfold dump_value dump_some dump_newline at h
                  dsimp only at h
                  cases hw : sinkWrite snkA v with
                  | mk sz snkB =>
                      rw [hw] at h
                      cases sz with
                      | none => cases h
                      | some n =>
                          dsimp only at h
                          unfold dump_some at h
                          dsimp only at h
                          cases hw2 : sinkWrite snkB [10] with
                          | mk sz2 snkC =>
                              rw [hw2] at h
                              cases sz2 with
                              | none => cases h
                              | some n2 =>
                                  dsimp only at h
                                  injection h with h2
                                  injection h2 with _ h3
                                  injection h3 with _ h5
                                  exact ⟨_, h5.symm⟩

theorem dumpLines_hash_isSome (digestOf : String → List Nat → String) :
    ∀ (lines : List PLine) (snk : Sink) (h0 : HashCtx) (sized : Option Bool)
      (snk1 : Sink) (hh : Option HashCtx),
    dumpLines digestOf snk lines (some h0) sized = .ok (snk1, hh) → ∃ h1, hh = some h1 := by
  intro lines
  induction lines with
  | nil =>
      intro snk h0 sized snk1 hh h
      injection h with h2
      injection h2 with _ h3
      exact ⟨h0, h3.symm⟩
  | cons l ls ih =>
      intro snk h0 sized snk1 hh h
      simp only [dumpLines] at h
      cases hd : dump_line digestOf snk l (some h0) sized with
      | error e => rw [hd] at h; cases h
      | ok t =>
          obtain ⟨c, snkA, hA⟩ := t
          rw [hd] at h
          obtain ⟨h0b, rfl⟩ := dump_line_hash_isSome digestOf snk l h0 sized c snkA hA hd
          exact ih snkA h0b sized snk1 hh h

theorem dump_block_hash_excluded (digestOf : String → List Nat → String)
    (lines unhashed : List PLine) (h0 : HashCtx) (sized : Option Bool)
    (snkB : Sink) (hB : Option HashCtx)
    (h : dump_block digestOf ⟨[], []⟩ lines unhashed (some h0) sized = .ok (snkB, hB)) :
    ∃ snk1 h1, dumpLines digestOf ⟨[], []⟩ lines (some h0) sized = .ok (snk1, some h1) ∧
      hB = some { h1 with fed := h1.fed ++ [10] } := by
  unfold dump_block at h
  cases hdl : dumpLines digestOf ⟨[], []⟩ lines (some h0) sized with
  | error e => rw [hdl] at h; cases h
  | ok t =>
      obtain ⟨snk1, hh⟩ := t
      rw [hdl] at h
      obtain ⟨h1, rfl⟩ := dumpLines_hash_isSome digestOf lines ⟨[], []⟩ h0 sized snk1 hh hdl
      dsimp only at h
      cases hhl : dump_line digestOf snk1
          (.kv h1.name (utf8Encode (hexdigest digestOf h1))) none sized with
      | error e => rw [hhl] at h; cases h
      | ok t2 =>
          obtain ⟨c2, snk2, hx⟩ := t2
          rw [hhl] at h
          dsimp only at h
          cases hu : dumpLines digestOf snk2 unhashed none sized with
          | error e => rw [hu] at h; cases h
          | ok t3 =>
              obtain ⟨snk3, hy⟩ := t3
              rw [hu] at h
              dsimp only at h
              unfold dump_newline dump_some at h
              dsimp only at h
              cases hw : sinkWrite snk3 [10] with
              | mk sz snk4 =>
                  rw [hw] at h
                  cases sz with
                  | none => cases h
                  | some n =>
                      dsimp only at h
                      injection h with h2
                      injection h2 with _ h5
                      exact ⟨snk1, h1, rfl, h5.symm⟩

theorem km_dump_line_eval (digestOf : String → List Nat → String) (key : String)
    (v : List Nat) (sized : Option Bool) (hash : Option HashCtx)
    (hkey : KM.pyIsIdentifier key = true) :
    KM.dump_line digestOf key v sized hash =
      .ok (utf8Encode key ++ (if sized.getD (decide (10 ∈ v))
            then 58 :: (natToDecimal v.length).map Char.toNat else []) ++ [61] ++ v ++ [10],
        update_hash hash (utf8Encode key ++ (if sized.getD (decide (10 ∈ v))
            then 58 :: (natToDecimal v.length).map Char.toNat else []) ++ [61] ++ v ++ [10])) := by
  unfold KM.dump_line
  rw [if_neg (by simp [hkey])]
  rw [if_neg (by
    intro hany
    rw [List.any_eq_true] at hany
    obtain ⟨ch, hc, hge⟩ := hany
    have := (ident_char_facts (pyIdent_chars hkey ch hc)).1
    simp only [decide_eq_true_eq] at hge
    omega)]

theorem dump_some_blocked (bs : List Bool) (w d : List Nat) (hash : Option HashCtx) :
    dump_some ⟨true :: bs, w⟩ (some d) hash = .error .blockingIOErr := rfl

theorem dump_newline_blocked (bs : List Bool) (w : List Nat) (hash : Option HashCtx) :
    dump_newline ⟨true :: bs, w⟩ hash = .error .blockingIOErr := rfl

theorem dump_value_blocked (bs : List Bool) (w v : List Nat) (hash : Option HashCtx) :
    dump_value ⟨true :: bs, w⟩ (some v) hash = .error .blockingIOErr := by
  unfold dump_value
  dsimp only
  rw [dump_some_blocked]

theorem dump_specification_blocked (bs : List Bool) (w sp : List Nat) (hash : Option HashCtx)
    (hsp : 61 ∉ sp ∧ 10 ∉ sp) :
    dump_specification ⟨true :: bs, w⟩ (some sp) hash = .error .blockingIOErr := by
  unfold dump_specification
  dsimp only
  rw [if_neg (by
    rintro (hmem | ⟨_, hmem⟩)
    · exact hsp.1 hmem
    · exact hsp.2 hmem)]
  rw [dump_some_blocked]

theorem dump_line_sentinel_blocked (digestOf : String → List Nat → String) (bs : List Bool)
    (w : List Nat) (hash : Option HashCtx) (sized : Option Bool) :
    dump_line digestOf ⟨true :: bs, w⟩ .sentinel hash sized = .error .blockingIOErr := by
  unfold dump_line
  dsimp only
  rw [dump_newline_blocked]

theorem dump_line_kv_blocked (digestOf : String → List Nat → String) (bs : List Bool)
    (w : List Nat) (key : String) (v : List Nat) (hash : Option HashCtx) (sized : Option Bool)
    (hkey : KM.pyIsIdentifier key = true)
    (hname : ∀ h0, hash = some h0 → key ≠ h0.name) :
    dump_line digestOf ⟨true :: bs, w⟩ (.kv key v) hash sized = .error .blockingIOErr := by
  unfold dump_line
  dsimp only
  rw [lineHashCheck_skip digestOf key v hash hname]
  dsimp only
  have hspec : Spec.encode key (if sized.getD (v.length > 1024 || decide (10 ∈ v))
      then some v.length else none) =
      .ok (utf8Encode key ++ (if sized.getD (v.length > 1024 || decide (10 ∈ v))
        then 58 :: decimalBytes v.length else [])) := by
    cases hcase : sized.getD (v.length > 1024 || decide (10 ∈ v)) with
    | false => simp [encode_ident_none key hkey]
    | true => simp [encode_ident_some key hkey v.length]
  rw [hspec]
  dsimp only
  rw [dump_specification_blocked _ _ _ _ (by
    constructor
    · intro hmem
      rw [List.mem_append] at hmem
      rcases hmem with hmem | hmem
      · exact (ident_byte_facts hkey 61 hmem).2.1 rfl
      · split at hmem
        · rw [List.mem_cons] at hmem
          rcases hmem with heq | hmem
          · omega
          · have := decimalBytes_facts v.length 61 hmem
            omega
        · simp at hmem
    · intro hmem
      rw [List.mem_append] at hmem
      rcases hmem with hmem | hmem
      · exact (ident_byte_facts hkey 10 hmem).2.2.1 rfl
      · split at hmem
        · rw [List.mem_cons] at hmem
          rcases hmem with heq | hmem
          · omega
          · have := decimalBytes_facts v.length 10 hmem
            omega
        · simp at hmem)]

theorem dump_block_empty_blocked (digestOf : String → List Nat → String) (bs : List Bool)
    (w : List Nat) (sized : Option Bool) :
    dump_block digestOf ⟨true :: bs, w⟩ [] [] none sized = .error .blockingIOErr := by
  unfold dump_block dumpLines
  dsimp only
  rw [dump_newline_blocked]

/-! ### Concrete-scenario evaluation lemmas -/

theorem loads_line_sentinel (digestOf : String → List Nat → String) (rest : List Nat)
    (hash : Option HashCtx) :
    load_line digestOf ⟨[], 10 :: rest⟩ hash =
      .ok (.sentinel, ⟨[], rest⟩, update_hash hash [10]) := by
  unfold load_line
  rw [loads_specification_sentinel rest hash]
  dsimp only
  rw [if_pos rfl]

theorem loadBlockGo_succ (digestOf : String → List Nat → String) (fuel : Nat) (src : Src)
    (hash : Option HashCtx) (acc : List (String × List Nat)) :
    loadBlockGo digestOf (fuel + 1) src hash acc =
      match load_line digestOf src hash with
      | .error e => .error e
      | .ok (.sentinel, src1, h1) => .ok (acc, src1, h1)
      | .ok (.kv k v, src1, h1) => loadBlockGo digestOf fuel src1 h1 (acc ++ [(k, v)]) := rfl

theorem loads_block_scenario :
    Loading.load_block hashlibDigest
      ⟨[], asciiBytes "a=hello\nc=world\nmd5=c5133712016d519e3b899e1db0fe7652\n\n"⟩
      (some ⟨"md5", []⟩) =
    .ok ([("a", asciiBytes "hello"), ("c", asciiBytes "world"),
          ("md5", asciiBytes "c5133712016d519e3b899e1db0fe7652")],
      ⟨[], []⟩,
      some ⟨"md5", asciiBytes "a=hello\nc=world\nmd5=c5133712016d519e3b899e1db0fe7652\n\n"⟩) := by
  have h1 : Loading.load_line hashlibDigest
      ⟨[], asciiBytes "a=hello\nc=world\nmd5=c5133712016d519e3b899e1db0fe7652\n\n"⟩
      (some ⟨"md5", []⟩) =
      .ok (.kv "a" (asciiBytes "hello"),
        ⟨[], asciiBytes "c=world\nmd5=c5133712016d519e3b899e1db0fe7652\n\n"⟩,
        some ⟨"md5", asciiBytes "a=hello\n"⟩) :=
    loads_line_kv_unsized hashlibDigest "a" (asciiBytes "hello")
      (asciiBytes "c=world\nmd5=c5133712016d519e3b899e1db0fe7652\n\n")
      (some ⟨"md5", []⟩) (by decide) (by decide) (fun h0 hh => by cases hh; decide)
  have h2 : Loading.load_line hashlibDigest
      ⟨[], asciiBytes "c=world\nmd5=c5133712016d519e3b899e1db0fe7652\n\n"⟩
      (some ⟨"md5", asciiBytes "a=hello\n"⟩) =
      .ok (.kv "c" (asciiBytes "world"),
        ⟨[], asciiBytes "md5=c5133712016d519e3b899e1db0fe7652\n\n"⟩,
        some ⟨"md5", asciiBytes "a=hello\nc=world\n"⟩) :=
    loads_line_kv_unsized hashlibDigest "c" (asciiBytes "world")
      (asciiBytes "md5=c5133712016d519e3b899e1db0fe7652\n\n")
      (some ⟨"md5", asciiBytes "a=hello\n"⟩) (by decide) (by decide)
      (fun h0 hh => by cases hh; decide)
  have h3 : Loading.load_line hashlibDigest
      ⟨[], asciiBytes "md5=c5133712016d519e3b899e1db0fe7652\n\n"⟩
      (some ⟨"md5", asciiBytes "a=hello\nc=world\n"⟩) =
      .ok (.kv "md5" (asciiBytes "c5133712016d519e3b899e1db0fe7652"),
        ⟨[], [10]⟩,
        some ⟨"md5", asciiBytes "a=hello\nc=world\nmd5=c5133712016d519e3b899e1db0fe7652\n"⟩) := by
    have hand := loads_line_hash_line hashlibDigest
      ⟨"md5", asciiBytes "a=hello\nc=world\n"⟩ [10] (by decide) (by decide)
    rw [show hashlibDigest "md5" (asciiBytes "a=hello\nc=world\n") =
      "c5133712016d519e3b899e1db0fe7652" from by decide] at hand
    exact hand
  have h4 : Loading.load_line hashlibDigest ⟨[], [10]⟩
      (some ⟨"md5", asciiBytes "a=hello\nc=world\nmd5=c5133712016d519e3b899e1db0fe7652\n"⟩) =
      .ok (.sentinel, ⟨[], []⟩,
        some ⟨"md5", asciiBytes "a=hello\nc=world\nmd5=c5133712016d519e3b899e1db0fe7652\n\n"⟩) := by
    have hs := loads_line_sentinel hashlibDigest []
      (some ⟨"md5", asciiBytes "a=hello\nc=world\nmd5=c5133712016d519e3b899e1db0fe7652\n"⟩)
    exact hs
  show Loading.loadBlockGo hashlibDigest 55
      ⟨[], asciiBytes "a=hello\nc=world\nmd5=c5133712016d519e3b899e1db0fe7652\n\n"⟩
      (some ⟨"md5", []⟩) [] = _
  rw [show (55 : Nat) = 54 + 1 from rfl, loadBlockGo_succ, h1]
  dsimp only
  rw [show (54 : Nat) = 53 + 1 from rfl, loadBlockGo_succ, h2]
  dsimp only
  rw [show (53 : Nat) = 52 + 1 from rfl, loadBlockGo_succ, h3]
  dsimp only
  rw [show (52 : Nat) = 51 + 1 from rfl, loadBlockGo_succ, h4]
  rfl

/-! ### Claim theorems -/

/-- C2: encoding the block with lines `(a, hello)` then `(c, world)` with an
md5 hash context produces exactly the bytes
`a=hello\nc=world\nmd5=c5133712016d519e3b899e1db0fe7652\n\n`, through both
the flat module's `dumps_block` and the package's `dump_block`. -/
theorem c2_block_encoding :
    KM.dumps_block hashlibDigest
        [("a", asciiBytes "hello"), ("c", asciiBytes "world")] none (some "md5") none =
      .ok (asciiBytes "a=hello\nc=world\nmd5=c5133712016d519e3b899e1db0fe7652\n\n")
    ∧ Dumping.dumps_block hashlibDigest
        [.kv "a" (asciiBytes "hello"), .kv "c" (asciiBytes "world")] []
        (some ⟨"md5", []⟩) none =
      .ok (asciiBytes "a=hello\nc=world\nmd5=c5133712016d519e3b899e1db0fe7652\n\n") := by
  exact ⟨by decide, by decide⟩

/-- C4: on the spec's concrete block, the stream wrapper's `load` filters the
hash line out even when the caller passes `include_hash = True` (the body
ignores the parameter), while the flat module's `load_block` honours its
`return_hash` opt-in: by default the hash line is consumed and validated but
not yielded, and `return_hash = True` re-yields it. -/
theorem c4_hash_line_opt_in :
    SM.stream_load hashlibDigest
        (asciiBytes "a=hello\nc=world\nmd5=c5133712016d519e3b899e1db0fe7652\n\n")
        (some "md5") true =
      .ok [("a", asciiBytes "hello"), ("c", asciiBytes "world")]
    ∧ SM.stream_load hashlibDigest
        (asciiBytes "a=hello\nc=world\nmd5=c5133712016d519e3b899e1db0fe7652\n\n")
        (some "md5") false =
      .ok [("a", asciiBytes "hello"), ("c", asciiBytes "world")]
    ∧ KM.load_block hashlibDigest
        (asciiBytes "a=hello\nc=world\nmd5=c5133712016d519e3b899e1db0fe7652\n\n")
        (some "md5") true =
      .ok [("a", asciiBytes "hello"), ("c", asciiBytes "world"),
           ("md5", asciiBytes "c5133712016d519e3b899e1db0fe7652")]
    ∧ KM.load_block hashlibDigest
        (asciiBytes "a=hello\nc=world\nmd5=c5133712016d519e3b899e1db0fe7652\n\n")
        (some "md5") false =
      .ok [("a", asciiBytes "hello"), ("c", asciiBytes "world")] := by
  refine ⟨?_, ?_, by decide, by decide⟩
  · unfold SM.stream_load
    dsimp only
    rw [show Option.map (fun a => (⟨a, []⟩ : Hashing.HashCtx)) (some "md5") =
      some ⟨"md5", []⟩ from rfl]
    rw [loads_block_scenario]
    decide
  · unfold SM.stream_load
    dsimp only
    rw [show Option.map (fun a => (⟨a, []⟩ : Hashing.HashCtx)) (some "md5") =
      some ⟨"md5", []⟩ from rfl]
    rw [loads_block_scenario]
    decide

/-- C1 (counterexample): with the unsized framing choice forced, a value
containing a raw newline does not round-trip: `('k', b'\n')` encodes to
`k=\n\n` but decodes back to `('k', b'')`. -/
theorem c1_counterexample :
    Dumping.dumps_line hashlibDigest (.kv "k" [10]) none (some false) = .ok [107, 61, 10, 10]
    ∧ Loading.loads_line hashlibDigest [107, 61, 10, 10] none =
      .ok (.kv "k" [], ⟨[], [10]⟩, none)
    ∧ (Loading.Line.kv "k" [] : Loading.Line) ≠ .kv "k" [10] := by
  exact ⟨by decide, by decide, by decide⟩

/-- C1 (amended): for every identifier key, the line codec round-trips with
the sized framing choice for every byte-sequence value, and with the unsized
framing choice for every value that contains no raw newline byte. -/
theorem c1_roundtrip (key : String) (v : List Nat) (hkey : KM.pyIsIdentifier key = true) :
    (Dumping.dumps_line hashlibDigest (.kv key v) none (some true) =
        .ok ((utf8Encode key ++ 58 :: decimalBytes v.length) ++ 61 :: (v ++ [10]))
      ∧ Loading.loads_line hashlibDigest
          ((utf8Encode key ++ 58 :: decimalBytes v.length) ++ 61 :: (v ++ [10])) none =
        .ok (.kv key v, ⟨[], []⟩, none))
    ∧ (10 ∉ v →
      Dumping.dumps_line hashlibDigest (.kv key v) none (some false) =
          .ok (utf8Encode key ++ 61 :: (v ++ [10]))
        ∧ Loading.loads_line hashlibDigest (utf8Encode key ++ 61 :: (v ++ [10])) none =
          .ok (.kv key v, ⟨[], []⟩, none)) := by
  constructor
  · constructor
    · unfold Dumping.dumps_line
      rw [dump_line_kv hashlibDigest [] key v none (some true) true hkey
        (fun _ h => by cases h) rfl]
      dsimp only
      simp [List.append_assoc]
    · have h := loads_line_kv_sized hashlibDigest key v [] none hkey (fun _ hh => by cases hh)
      simpa [Loading.loads_line, Hashing.update_hash] using h
  · intro hv
    constructor
    · unfold Dumping.dumps_line
      rw [dump_line_kv hashlibDigest [] key v none (some false) false hkey
        (fun _ h => by cases h) rfl]
      dsimp only
      simp
    · have h := loads_line_kv_unsized hashlibDigest key v [] none hkey hv
        (fun _ hh => by cases hh)
      simpa [Loading.loads_line, Hashing.update_hash] using h

/-- C1 (witness): the round-trip theorem applied at key `k` with a
newline-containing value (sized) and a plain value (unsized). -/
theorem c1_roundtrip_witness :
    KM.pyIsIdentifier "k" = true
    ∧ Loading.loads_line hashlibDigest
        ((utf8Encode "k" ++ 58 :: decimalBytes ([97, 10] : List Nat).length) ++
          61 :: ([97, 10] ++ [10])) none =
      .ok (.kv "k" [97, 10], ⟨[], []⟩, none)
    ∧ Loading.loads_line hashlibDigest (utf8Encode "k" ++ 61 :: ([97, 98] ++ [10])) none =
      .ok (.kv "k" [97, 98], ⟨[], []⟩, none) :=
  ⟨by decide, (c1_roundtrip "k" [97, 10] (by decide)).1.2,
   ((c1_roundtrip "k" [97, 98] (by decide)).2 (by decide)).2⟩

/-- C5 (counterexample): `dump_line` with an active hash context whose name
equals the line's key still feeds every written byte into that context
(after validating the value against the current digest), so "none of that
line's bytes are fed" fails. -/
theorem c5_counterexample :
    (Dumping.dump_line (fun _ _ => "aa") ⟨[], []⟩ (.kv "h" [97, 97])
        (some ⟨"h", []⟩) none).map (fun r => r.2.2) =
      .ok (some ⟨"h", [104, 61, 97, 97, 10]⟩)
    ∧ ([104, 61, 97, 97, 10] : List Nat) ≠ [] := by
  exact ⟨by decide, by decide⟩

/-- C5 (amended): on a successful `dump_line` every byte written is fed into
the hash context that was passed in — including for a line whose key equals
the hash's name — and `dump_block` keeps the hash line out of the digest by
dumping it with no context: its final context is the one produced by the
hashed lines plus only the terminating blank-line newline. -/
theorem c5_fed_equals_written (digestOf : String → List Nat → String) (w : List Nat)
    (line : Dumping.PLine) (hash : Option Hashing.HashCtx) (sized : Option Bool)
    (c : Option Nat) (snk1 : Dumping.Sink) (h1 : Option Hashing.HashCtx)
    (lines unhashed : List Dumping.PLine) (h0 : Hashing.HashCtx)
    (snkB : Dumping.Sink) (hB : Option Hashing.HashCtx) :
    (Dumping.dump_line digestOf ⟨[], w⟩ line hash sized = .ok (c, snk1, h1) →
      ∃ delta, snk1 = ⟨[], w ++ delta⟩ ∧ h1 = Hashing.update_hash hash delta)
    ∧ (Dumping.dump_block digestOf ⟨[], []⟩ lines unhashed (some h0) sized = .ok (snkB, hB) →
      ∃ snk2 h2, Dumping.dumpLines digestOf ⟨[], []⟩ lines (some h0) sized =
          .ok (snk2, some h2) ∧
        hB = some { h2 with fed := h2.fed ++ [10] }) :=
  ⟨dump_line_feeds_written digestOf w line hash sized c snk1 h1,
   dump_block_hash_excluded digestOf lines unhashed h0 sized snkB hB⟩

/-- C5 (witness): the fed-equals-written theorem applied to a concrete line
dump and a concrete single-line block dump. -/
theorem c5_fed_equals_written_witness :
    (∃ delta, (⟨[], [107, 61, 118, 10]⟩ : Dumping.Sink) = ⟨[], [] ++ delta⟩ ∧
      (some ⟨"h", [107, 61, 118, 10]⟩ : Option Hashing.HashCtx) =
        Hashing.update_hash (some ⟨"h", []⟩) delta)
    ∧ (∃ snk2 h2, Dumping.dumpLines hashlibDigest ⟨[], []⟩ [.kv "a" (asciiBytes "hello")]
          (some ⟨"md5", []⟩) none = .ok (snk2, some h2) ∧
        (some ⟨"md5", asciiBytes "a=hello\n\n"⟩ : Option Hashing.HashCtx) =
          some { h2 with fed := h2.fed ++ [10] }) :=
  ⟨(c5_fed_equals_written hashlibDigest [] (.kv "k" [118]) (some ⟨"h", []⟩) none
      (some 4) ⟨[], [107, 61, 118, 10]⟩ (some ⟨"h", [107, 61, 118, 10]⟩)
      [] [] ⟨"h", []⟩ ⟨[], []⟩ none).1 (by decide),
   (c5_fed_equals_written hashlibDigest [] .noLine none none none ⟨[], []⟩ none
      [.kv "a" (asciiBytes "hello")] [] ⟨"md5", []⟩
      ⟨[], asciiBytes "a=hello\nmd5=7264d036727a0119355da0eff255aa08\n\n"⟩
      (some ⟨"md5", asciiBytes "a=hello\n\n"⟩)).2 (by decide)⟩

/-- C6 (counterexample): decoding the line `k=v\n` with an active hash
context feeds the bytes in stream order `k`, `=`, `v`, `\n` — not the
claimed order `k`, `v`, `=`, `\n`. -/
theorem c6_counterexample :
    (Loading.loads_line hashlibDigest [107, 61, 118, 10] (some ⟨"h", []⟩)).map
        (fun r => r.2.2) =
      .ok (some ⟨"h", [107, 61, 118, 10]⟩)
    ∧ ([107, 61, 118, 10] : List Nat) ≠ [107] ++ [118] ++ [61, 10] := by
  exact ⟨by decide, by decide⟩

/-- C6 (amended): decoding a line feeds the hash context exactly the line's
raw bytes in stream order — the specification bytes with `=`, then for an
unsized value the value bytes with the newline, and for a sized value the
value bytes followed by the trailing newline — both for a line whose key
differs from the hash's name and for a hash line itself, whose value is
validated against the digest taken before the line but whose bytes are
still fed. -/
theorem c6_hash_feed (digestOf : String → List Nat → String) (key : String)
    (v rest : List Nat) (h0 : Hashing.HashCtx) (hkey : KM.pyIsIdentifier key = true) :
    (key ≠ h0.name → 10 ∉ v →
      Loading.loads_line digestOf (utf8Encode key ++ 61 :: (v ++ 10 :: rest)) (some h0) =
        .ok (.kv key v, ⟨[], rest⟩,
          some { h0 with fed := h0.fed ++ ((utf8Encode key ++ [61]) ++ (v ++ [10])) }))
    ∧ (key ≠ h0.name →
      Loading.loads_line digestOf
          ((utf8Encode key ++ 58 :: decimalBytes v.length) ++ 61 :: (v ++ 10 :: rest))
          (some h0) =
        .ok (.kv key v, ⟨[], rest⟩,
          some { h0 with fed := h0.fed ++
            (((utf8Encode key ++ 58 :: decimalBytes v.length) ++ [61]) ++ (v ++ [10])) }))
    ∧ (key = h0.name → v = utf8Encode (digestOf h0.name h0.fed) →
      (∀ ch ∈ (digestOf h0.name h0.fed).data, ch.toNat < 128 ∧ ch.toNat ≠ 10) →
      Loading.loads_line digestOf (utf8Encode key ++ 61 :: (v ++ 10 :: rest)) (some h0) =
        .ok (.kv key v, ⟨[], rest⟩,
          some { h0 with fed := h0.fed ++ ((utf8Encode key ++ [61]) ++ (v ++ [10])) })) := by
  refine ⟨?_, ?_, ?_⟩
  · intro hname hv
    have h := loads_line_kv_unsized digestOf key v rest (some h0) hkey hv
      (fun hh heq => by cases heq; exact hname)
    simpa [Loading.loads_line, Hashing.update_hash] using h
  · intro hname
    have h := loads_line_kv_sized digestOf key v rest (some h0) hkey
      (fun hh heq => by cases heq; exact hname)
    simpa [Loading.loads_line, Hashing.update_hash] using h
  · intro hname hval hdigest
    subst hname
    subst hval
    have h := loads_line_hash_line digestOf h0 rest hkey hdigest
    simpa [Loading.loads_line, Hashing.update_hash] using h

/-- C6 (witness): the feed-order theorem applied to a concrete unsized
non-hash line, a concrete sized line whose value contains a newline, and a
concrete hash line. -/
theorem c6_hash_feed_witness :
    Loading.loads_line hashlibDigest (utf8Encode "k" ++ 61 :: ([118] ++ 10 :: []))
        (some ⟨"h", []⟩) =
      .ok (.kv "k" [118], ⟨[], []⟩,
        some ⟨"h", [] ++ ((utf8Encode "k" ++ [61]) ++ ([118] ++ [10]))⟩)
    ∧ Loading.loads_line hashlibDigest
        ((utf8Encode "k" ++ 58 :: decimalBytes ([10] : List Nat).length) ++
          61 :: ([10] ++ 10 :: [])) (some ⟨"h", []⟩) =
      .ok (.kv "k" [10], ⟨[], []⟩,
        some ⟨"h", [] ++ (((utf8Encode "k" ++
          58 :: decimalBytes ([10] : List Nat).length) ++ [61]) ++ ([10] ++ [10]))⟩)
    ∧ Loading.loads_line hashlibDigest
        (utf8Encode "h" ++ 61 :: (utf8Encode (hashlibDigest "h" []) ++ 10 :: []))
        (some ⟨"h", []⟩) =
      .ok (.kv "h" (utf8Encode (hashlibDigest "h" [])), ⟨[], []⟩,
        some ⟨"h", [] ++ ((utf8Encode "h" ++ [61]) ++
          (utf8Encode (hashlibDigest "h" []) ++ [10]))⟩) :=
  ⟨(c6_hash_feed hashlibDigest "k" [118] [] ⟨"h", []⟩ (by decide)).1 (by decide) (by decide),
   (c6_hash_feed hashlibDigest "k" [10] [] ⟨"h", []⟩ (by decide)).2.1 (by decide),
   (c6_hash_feed hashlibDigest "h" (utf8Encode (hashlibDigest "h" [])) [] ⟨"h", []⟩
      (by decide)).2.2 rfl rfl (by decide)⟩

/-- C7 (counterexample): a sized value with fewer bytes available than the
declared size fails with `EOFError` (the spec's UnexpectedEndOfStream), not
with a `Corruption`/framing error. -/
theorem c7_counterexample :
    Loading.loads_value [97, 98] (some 5) none = .error .eof
    ∧ isCorruptionResult (Loading.loads_value [97, 98] (some 5) none) = false := by
  exact ⟨by decide, by decide⟩

/-- C7 (amended): reading a sized value consumes exactly the declared number
of bytes and then requires the newline-delimited span to be exactly `\n`:
extra bytes before the newline fail with the `Corruption` framing error,
while fewer bytes than declared (or a missing newline) fail with
`EOFError`. -/
theorem c7_sized_value_framing (s : Nat) (v extra rest input : List Nat)
    (hv : v.length = s) :
    (Loading.loads_value (v ++ 10 :: rest) (some s) none = .ok (v, ⟨[], rest⟩, none))
    ∧ (extra ≠ [] → 10 ∉ extra →
        Loading.loads_value (v ++ (extra ++ 10 :: rest)) (some s) none =
          .error (.corruption ("got " ++ toString extra.length ++ " extra bytes in value")))
    ∧ (input.length < s → Loading.loads_value input (some s) none = .error .eof) := by
  subst hv
  refine ⟨?_, ?_, ?_⟩
  · have h := loads_value_sized v rest none
    simpa [Loading.loads_value, Hashing.update_hash] using h
  · intro hne h10
    unfold Loading.loads_value Loading.load_value
    dsimp only
    rw [loads_some_sized v.length (v ++ (extra ++ 10 :: rest)) none (by simp)]
    dsimp only
    rw [List.take_left, List.drop_left]
    rw [if_neg (by simp)]
    rw [show ([[10]] : List (List Nat)) = ([10] : List Nat).map (fun b => [b]) from rfl]
    rw [show Hashing.update_hash none v = none from rfl]
    rw [loads_some_delim [10] (by simp) extra 10 rest none
      (by intro b hb; simp; intro hb2; subst hb2; exact h10 hb) (by simp)]
    dsimp only
    rw [if_pos (by
      intro heq
      apply hne
      have hlen := congrArg List.length heq
      simp at hlen
      exact hlen)]
    have hl : (extra ++ [10]).length - 1 = extra.length := by simp
    rw [hl]
  · intro hlt
    unfold Loading.loads_value Loading.load_value
    dsimp only
    rw [loads_some_sized_eof v.length input none hlt]

/-- C7 (witness): the sized-value framing theorem applied at declared size 2
with an exact value, one extra byte, and a truncated input. -/
theorem c7_sized_value_framing_witness :
    ([97, 98] : List Nat).length = 2
    ∧ Loading.loads_value ([97, 98] ++ 10 :: []) (some 2) none =
        .ok ([97, 98], ⟨[], []⟩, none)
    ∧ Loading.loads_value ([97, 98] ++ ([99] ++ 10 :: [])) (some 2) none =
        .error (.corruption ("got " ++ toString ([99] : List Nat).length ++
          " extra bytes in value"))
    ∧ Loading.loads_value [97] (some 2) none = .error .eof :=
  ⟨by decide, (c7_sized_value_framing 2 [97, 98] [99] [] [97] (by decide)).1,
   (c7_sized_value_framing 2 [97, 98] [99] [] [97] (by decide)).2.1 (by decide) (by decide),
   (c7_sized_value_framing 2 [97, 98] [99] [] [97] (by decide)).2.2 (by decide)⟩

/-- C8: for a key containing `:`, `=` or a newline, `specification.encode`
fails — but with `NameError` (the error message's f-string references the
undefined name `tok`), not the intended `ValueError`/`MalformedKey`; for a
key containing none of them it succeeds and produces the bytes of `key` or
`key:size`. -/
theorem c8_encode_behavior :
    Spec.encode ":" none = .error (.nameError "tok")
    ∧ Spec.encode "=" none = .error (.nameError "tok")
    ∧ Spec.encode "\n" none = .error (.nameError "tok")
    ∧ (∀ (key : String) (size : Option Nat),
        key.data.all (fun ch => !Spec.forbiddenKeyChar ch) = true →
        Spec.encode key size = .ok (match size with
          | none => utf8Encode key
          | some s => utf8Encode (key ++ ":" ++ String.mk (natToDecimal s)))) := by
  refine ⟨by decide, by decide, by decide, ?_⟩
  intro key size hkey
  unfold Spec.encode Spec.check_name
  rw [if_neg (by
    rw [List.any_eq_true]
    rintro ⟨ch, hc, hf⟩
    have hall := List.all_eq_true.mp hkey ch hc
    rw [hf] at hall
    cases hall)]
  cases size <;> rfl

/-- C8 (witness): the encode theorem applied at the well-formed key `k` with
size 5. -/
theorem c8_encode_behavior_witness :
    ("k".data.all (fun ch => !Spec.forbiddenKeyChar ch)) = true
    ∧ Spec.encode "k" (some 5) = .ok (utf8Encode ("k" ++ ":" ++ String.mk (natToDecimal 5))) :=
  ⟨by decide, c8_encode_behavior.2.2.2 "k" (some 5) (by decide)⟩

/-- C9 (counterexample): the flat module's `dump_line` decides `sized` only
by whether the value contains a newline, so a newline-free value of 1025
bytes is still encoded unsized, contradicting the 1024-byte threshold
claim. -/
theorem c9_counterexample :
    KM.dump_line hashlibDigest "k" (List.replicate 1025 97) none none =
      .ok ([107, 61] ++ List.replicate 1025 97 ++ [10], none)
    ∧ KM.dump_line hashlibDigest "k" (List.replicate 1025 97) none none ≠
      .ok (utf8Encode "k" ++ 58 :: decimalBytes 1025 ++ [61] ++ List.replicate 1025 97 ++ [10],
        none) := by
  exact ⟨by decide, by decide⟩

/-- C9 (amended): with no explicit framing choice, the package's `dump_line`
chooses sized framing exactly when the value exceeds 1024 bytes or contains
a raw newline (so 1024 newline-free bytes stay unsized and 1025 become
sized), while the flat module's `dump_line` chooses sized framing exactly
when the value contains a raw newline, with no length threshold. -/
theorem c9_auto_sizing (key : String) (v : List Nat) (hkey : KM.pyIsIdentifier key = true) :
    Dumping.dumps_line hashlibDigest (.kv key v) none none =
      .ok ((utf8Encode key ++ (if v.length > 1024 || decide (10 ∈ v)
          then 58 :: decimalBytes v.length else [])) ++ 61 :: (v ++ [10]))
    ∧ KM.dump_line hashlibDigest key v none none =
      .ok ((utf8Encode key ++ (if decide (10 ∈ v)
          then 58 :: decimalBytes v.length else [])) ++ 61 :: (v ++ [10]), none) := by
  constructor
  · unfold Dumping.dumps_line
    rw [dump_line_kv hashlibDigest [] key v none none (v.length > 1024 || decide (10 ∈ v))
      hkey (fun _ h => by cases h) rfl]
    dsimp only
    simp [List.append_assoc]
  · rw [km_dump_line_eval hashlibDigest key v none none hkey]
    show _ = .ok ((utf8Encode key ++ (if decide (10 ∈ v)
      then 58 :: decimalBytes v.length else [])) ++ 61 :: (v ++ [10]), none)
    simp [List.append_assoc, decimalBytes, Hashing.update_hash]

/-- C9 (witness): the auto-sizing theorem applied at a 1024-byte newline-free
value (unsized), a 1025-byte one (sized), and a newline-containing one. -/
theorem c9_auto_sizing_witness :
    KM.pyIsIdentifier "k" = true
    ∧ Dumping.dumps_line hashlibDigest (.kv "k" (List.replicate 1024 97)) none none =
      .ok ((utf8Encode "k" ++ (if (List.replicate 1024 97 : List Nat).length > 1024 ||
          decide ((10 : Nat) ∈ List.replicate 1024 97)
          then 58 :: decimalBytes (List.replicate 1024 97 : List Nat).length else [])) ++
        61 :: (List.replicate 1024 97 ++ [10]))
    ∧ Dumping.dumps_line hashlibDigest (.kv "k" (List.replicate 1025 97)) none none =
      .ok ((utf8Encode "k" ++ (if (List.replicate 1025 97 : List Nat).length > 1024 ||
          decide ((10 : Nat) ∈ List.replicate 1025 97)
          then 58 :: decimalBytes (List.replicate 1025 97 : List Nat).length else [])) ++
        61 :: (List.replicate 1025 97 ++ [10]))
    ∧ KM.dump_line hashlibDigest "k" [10] none none =
      .ok ((utf8Encode "k" ++ (if decide ((10 : Nat) ∈ [10])
          then 58 :: decimalBytes ([10] : List Nat).length else [])) ++ 61 :: ([10] ++ [10]),
        none) :=
  ⟨by decide, (c9_auto_sizing "k" (List.replicate 1024 97) (by decide)).1,
   (c9_auto_sizing "k" (List.replicate 1025 97) (by decide)).1,
   (c9_auto_sizing "k" [10] (by decide)).2⟩

/-- C3: driving any load operation (`load_some`, `load_line`, `load_block`)
against a source with any would-block schedule — in particular one that
blocks on every other read — produces the same final decoded result, unread
bytes and hash context as driving it against a source that delivers the
same bytes immediately. -/
theorem c3_suspension_transparency (blocks : List Bool) (data : List Nat)
    (size : Option Nat) (delims : List (List Nat)) (hash : Option Hashing.HashCtx)
    (digestOf : String → List Nat → String) :
    dropBlocks (Loading.load_some ⟨blocks, data⟩ size delims hash) =
      dropBlocks (Loading.load_some ⟨[], data⟩ size delims hash)
    ∧ dropBlocks (Loading.load_line digestOf ⟨blocks, data⟩ hash) =
      dropBlocks (Loading.load_line digestOf ⟨[], data⟩ hash)
    ∧ dropBlocks (Loading.load_block digestOf ⟨blocks, data⟩ hash) =
      dropBlocks (Loading.load_block digestOf ⟨[], data⟩ hash) :=
  ⟨load_some_transparent ⟨blocks, data⟩ size delims hash,
   load_line_transparent digestOf ⟨blocks, data⟩ hash,
   load_block_transparent digestOf ⟨blocks, data⟩ hash⟩

/-- C10: a would-block answer from the sink makes every dump operation raise
`BlockingIOError` at once — writes are never suspended and never retried:
`dump_some`, `dump_newline`, `dump_value`, `dump_specification`,
`dump_line` (sentinel and key/value forms) and `dump_block` all fail with
`BlockingIOError` when the next write would block. -/
theorem c10_write_never_suspends (digestOf : String → List Nat → String) (bs : List Bool)
    (w : List Nat) (hash : Option Hashing.HashCtx) (sized : Option Bool) :
    (∀ d, Dumping.dump_some ⟨true :: bs, w⟩ (some d) hash = .error .blockingIOErr)
    ∧ Dumping.dump_newline ⟨true :: bs, w⟩ hash = .error .blockingIOErr
    ∧ (∀ v, Dumping.dump_value ⟨true :: bs, w⟩ (some v) hash = .error .blockingIOErr)
    ∧ (∀ sp, 61 ∉ sp → 10 ∉ sp →
        Dumping.dump_specification ⟨true :: bs, w⟩ (some sp) hash = .error .blockingIOErr)
    ∧ Dumping.dump_line digestOf ⟨true :: bs, w⟩ .sentinel hash sized = .error .blockingIOErr
    ∧ (∀ key v, KM.pyIsIdentifier key = true → (∀ h0, hash = some h0 → key ≠ h0.name) →
        Dumping.dump_line digestOf ⟨true :: bs, w⟩ (.kv key v) hash sized =
          .error .blockingIOErr)
    ∧ Dumping.dump_block digestOf ⟨true :: bs, w⟩ [] [] none sized = .error .blockingIOErr :=
  ⟨fun d => dump_some_blocked bs w d hash,
   dump_newline_blocked bs w hash,
   fun v => dump_value_blocked bs w v hash,
   fun sp h1 h2 => dump_specification_blocked bs w sp hash ⟨h1, h2⟩,
   dump_line_sentinel_blocked digestOf bs w hash sized,
   fun key v hk hn => dump_line_kv_blocked digestOf bs w key v hash sized hk hn,
   dump_block_empty_blocked digestOf bs w sized⟩

/-- C10 (witness): the blocking-write theorem applied to a concrete blocked
sink, a concrete specification and a concrete key/value line. -/
theorem c10_write_never_suspends_witness :
    Dumping.dump_some ⟨[true], []⟩ (some [104]) none = .error .blockingIOErr
    ∧ Dumping.dump_specification ⟨[true], []⟩ (some [107]) none = .error .blockingIOErr
    ∧ Dumping.dump_line hashlibDigest ⟨[true], []⟩ (.kv "k" [118]) none none =
      .error .blockingIOErr :=
  ⟨(c10_write_never_suspends hashlibDigest [] [] none none).1 [104],
   (c10_write_never_suspends hashlibDigest [] [] none none).2.2.2.1 [107]
     (by decide) (by decide),
   (c10_write_never_suspends hashlibDigest [] [] none none).2.2.2.2.2.1 "k" [118]
     (by decide) (fun h0 h => by cases h)⟩
